import Mathlib

/-!
Verification development for the Tinkerly generation-orchestration pipeline.

Shallow embedding of:
* `CodeGenerationService` (src/unnamed/part_013): cache-keyed generation,
  streaming generation, validation, JSON extraction/repair and response
  normalization;
* `MemoryCacheService` (src/backend/src/services/providers/gemini-provider.ts,
  second file in that blob): TTL + LRU in-memory cache;
* `GeminiProvider.generateContent` retry loop (same blob, first file);
* `ServiceContainer` (src/backend/src/services/container/service-container.ts).

JavaScript machine integers do not matter here (all arithmetic is small), so
timestamps, sizes and counters are modelled as `Nat`/`Int`.  JavaScript `Map`
iteration order (insertion order) is modelled by association lists.
-/

namespace Tinkerly

/-! ## JavaScript-style JSON values

`JSON.parse` results are modelled by `Json`.  Numbers keep their source
lexeme (the code never does arithmetic on parsed numbers; only truthiness is
consulted, and a JSON numeral is falsy exactly when all its mantissa digits
are `0`). -/

inductive Json where
  | null : Json
  | bool (b : Bool) : Json
  | num (lit : String) : Json
  | str (s : String) : Json
  | arr (elems : List Json) : Json
  | obj (fields : List (String × Json)) : Json
deriving Repr

mutual

def Json.beq : Json → Json → Bool
  | .null, .null => true
  | .bool a, .bool b => a == b
  | .num a, .num b => a == b
  | .str a, .str b => a == b
  | .arr a, .arr b => Json.beqList a b
  | .obj a, .obj b => Json.beqFields a b
  | _, _ => false

def Json.beqList : List Json → List Json → Bool
  | [], [] => true
  | a :: as, b :: bs => Json.beq a b && Json.beqList as bs
  | _, _ => false

def Json.beqFields : List (String × Json) → List (String × Json) → Bool
  | [], [] => true
  | (k, a) :: as, (l, b) :: bs => k == l && Json.beq a b && Json.beqFields as bs
  | _, _ => false

end

mutual

theorem Json.beq_eq : ∀ a b : Json, Json.beq a b = true → a = b
  | .null, .null, _ => rfl
  | .bool a, .bool b, h => by
      simp only [Json.beq, beq_iff_eq] at h; exact h ▸ rfl
  | .num a, .num b, h => by
      simp only [Json.beq, beq_iff_eq] at h; exact h ▸ rfl
  | .str a, .str b, h => by
      simp only [Json.beq, beq_iff_eq] at h; exact h ▸ rfl
  | .arr a, .arr b, h => by
      simp only [Json.beq] at h
      exact congrArg Json.arr (Json.beqList_eq a b h)
  | .obj a, .obj b, h => by
      simp only [Json.beq] at h
      exact congrArg Json.obj (Json.beqFields_eq a b h)

theorem Json.beqList_eq : ∀ a b : List Json, Json.beqList a b = true → a = b
  | [], [], _ => rfl
  | a :: as, b :: bs, h => by
      simp only [Json.beqList, Bool.and_eq_true] at h
      rw [Json.beq_eq a b h.1, Json.beqList_eq as bs h.2]

theorem Json.beqFields_eq :
    ∀ a b : List (String × Json), Json.beqFields a b = true → a = b
  | [], [], _ => rfl
  | (k, a) :: as, (l, b) :: bs, h => by
      simp only [Json.beqFields, Bool.and_eq_true, beq_iff_eq] at h
      rw [h.1.1, Json.beq_eq a b h.1.2, Json.beqFields_eq as bs h.2]

end

mutual

theorem Json.beq_refl : ∀ a : Json, Json.beq a a = true
  | .null => rfl
  | .bool a => by simp [Json.beq]
  | .num a => by simp [Json.beq]
  | .str a => by simp [Json.beq]
  | .arr a => by simp only [Json.beq]; exact Json.beqList_refl a
  | .obj a => by simp only [Json.beq]; exact Json.beqFields_refl a

theorem Json.beqList_refl : ∀ a : List Json, Json.beqList a a = true
  | [] => rfl
  | a :: as => by
      simp only [Json.beqList, Bool.and_eq_true]
      exact ⟨Json.beq_refl a, Json.beqList_refl as⟩

theorem Json.beqFields_refl :
    ∀ a : List (String × Json), Json.beqFields a a = true
  | [] => rfl
  | (k, a) :: as => by
      simp [Json.beqFields, Json.beq_refl a, Json.beqFields_refl as]

end

instance : DecidableEq Json := fun a b =>
  if h : Json.beq a b = true then
    isTrue (Json.beq_eq a b h)
  else
    isFalse (fun he => h (he ▸ Json.beq_refl a))

/-- The `{` character (written via its code point). -/
def lbrace : Char := Char.ofNat 123

/-- The `}` character (written via its code point). -/
def rbrace : Char := Char.ofNat 125

/-! ## JSON.parse

A faithful executable model of ECMAScript `JSON.parse` on the JSON grammar:
insignificant whitespace is space/tab/LF/CR; strings reject raw control
characters below U+0020 and accept the escapes
`\" \\ \/ \b \f \n \r \t \uXXXX`; duplicate object keys keep the first
position and the last value (as JS property assignment does); trailing
non-whitespace input is an error.  Recursion is fuel-bounded; the fuel
supplied by `JSONparse` (`2·length + 8`) dominates the number of parser
steps, each of which consumes input or descends into a construct that does. -/

def jsonWs (c : Char) : Bool :=
  c = ' ' || c = '\t' || c = '\n' || c = '\r'

def skipJsonWs (s : List Char) : List Char :=
  s.dropWhile jsonWs

/-- JS object-assignment on an association list: overwrite in place if the
key is present (keeping its position), else append. -/
def alSet {β : Type} (l : List (String × β)) (k : String) (v : β) :
    List (String × β) :=
  match l with
  | [] => [(k, v)]
  | (k', v') :: t => if k' = k then (k, v) :: t else (k', v') :: alSet t k v

/-- JS property read: value at the first matching key, `none` = `undefined`. -/
def alGet {β : Type} (l : List (String × β)) (k : String) : Option β :=
  match l with
  | [] => none
  | (k', v') :: t => if k' = k then some v' else alGet t k

def hexVal (c : Char) : Option Nat :=
  if '0' ≤ c ∧ c ≤ '9' then some (c.toNat - '0'.toNat)
  else if 'a' ≤ c ∧ c ≤ 'f' then some (c.toNat - 'a'.toNat + 10)
  else if 'A' ≤ c ∧ c ≤ 'F' then some (c.toNat - 'A'.toNat + 10)
  else none

/-- Parse the body of a JSON string (the opening quote already consumed). -/
def parseJString : Nat → List Char → Option (List Char × List Char)
  | 0, _ => none
  | _, [] => none
  | fuel + 1, c :: rest =>
    if c = '"' then some ([], rest)
    else if c = '\\' then
      match rest with
      | [] => none
      | e :: rest2 =>
        let dec : Option (Char × List Char) :=
          if e = '"' then some ('"', rest2)
          else if e = '\\' then some ('\\', rest2)
          else if e = '/' then some ('/', rest2)
          else if e = 'b' then some (Char.ofNat 8, rest2)
          else if e = 'f' then some (Char.ofNat 12, rest2)
          else if e = 'n' then some ('\n', rest2)
          else if e = 'r' then some ('\r', rest2)
          else if e = 't' then some ('\t', rest2)
          else if e = 'u' then
            match rest2 with
            | h1 :: h2 :: h3 :: h4 :: rest3 =>
              match hexVal h1, hexVal h2, hexVal h3, hexVal h4 with
              | some a, some b, some c', some d =>
                some (Char.ofNat (((a * 16 + b) * 16 + c') * 16 + d), rest3)
              | _, _, _, _ => none
            | _ => none
          else none
        match dec with
        | none => none
        | some (ch, rest3) =>
          match parseJString fuel rest3 with
          | none => none
          | some (cs, r) => some (ch :: cs, r)
    else if c.toNat < 32 then none
    else
      match parseJString fuel rest with
      | none => none
      | some (cs, r) => some (c :: cs, r)

def isDigit (c : Char) : Bool := '0' ≤ c && c ≤ '9'

/-- Parse a JSON numeral, returning its lexeme. -/
def parseJNumber (s : List Char) : Option (List Char × List Char) :=
  let (sign, s1) :=
    match s with
    | '-' :: t => ([('-' : Char)], t)
    | _ => ([], s)
  let intPart : Option (List Char × List Char) :=
    match s1 with
    | '0' :: t => some (['0'], t)
    | c :: t =>
      if isDigit c ∧ c ≠ '0' then
        some (c :: t.takeWhile isDigit, t.dropWhile isDigit)
      else none
    | [] => none
  match intPart with
  | none => none
  | some (ip, s2) =>
    let (fp, s3) :=
      match s2 with
      | '.' :: t =>
        if (t.takeWhile isDigit).isEmpty then (([] : List Char), s2)
        else ('.' :: t.takeWhile isDigit, t.dropWhile isDigit)
      | _ => ([], s2)
    let fracOk : Bool :=
      match s3 with
      | '.' :: _ => false
      | _ => true
    let (ep, s4) :=
      match s3 with
      | e :: t =>
        if e = 'e' ∨ e = 'E' then
          let (es, t1) :=
            match t with
            | '+' :: t' => ([('+' : Char)], t')
            | '-' :: t' => ([('-' : Char)], t')
            | _ => ([], t)
          if (t1.takeWhile isDigit).isEmpty then (([] : List Char), s3)
          else (e :: (es ++ t1.takeWhile isDigit), t1.dropWhile isDigit)
        else ([], s3)
      | [] => ([], s3)
    let expOk : Bool :=
      match s4 with
      | e :: _ => ¬(e = 'e' ∨ e = 'E')
      | [] => true
    if fracOk ∧ expOk then some (sign ++ ip ++ fp ++ ep, s4) else none

def startsWithChars (p : List Char) (s : List Char) : Bool :=
  match p, s with
  | [], _ => true
  | _ :: _, [] => false
  | a :: ps, b :: ss => a = b && startsWithChars ps ss

mutual

def parseJValue : Nat → List Char → Option (Json × List Char)
  | 0, _ => none
  | fuel + 1, s =>
    match s with
    | [] => none
    | c :: rest =>
      if c = '"' then
        match parseJString fuel rest with
        | none => none
        | some (cs, r) => some (.str (String.mk cs), r)
      else if c = lbrace then
        parseJFields fuel (skipJsonWs rest) []
      else if c = '[' then
        parseJElems fuel (skipJsonWs rest) []
      else if startsWithChars ['t', 'r', 'u', 'e'] s then
        some (.bool true, s.drop 4)
      else if startsWithChars ['f', 'a', 'l', 's', 'e'] s then
        some (.bool false, s.drop 5)
      else if startsWithChars ['n', 'u', 'l', 'l'] s then
        some (.null, s.drop 4)
      else
        match parseJNumber s with
        | none => none
        | some (lex, r) => some (.num (String.mk lex), r)

/-- Parse array elements; `acc` holds the elements read so far (in order).
Called just after `[` (or after a `,`) with whitespace skipped. -/
def parseJElems : Nat → List Char → List Json → Option (Json × List Char)
  | 0, _, _ => none
  | fuel + 1, s, acc =>
    match s with
    | ']' :: r =>
      if acc.isEmpty then some (.arr [], r) else none
    | _ =>
      match parseJValue fuel s with
      | none => none
      | some (v, r) =>
        match skipJsonWs r with
        | ',' :: r2 => parseJElems fuel (skipJsonWs r2) (acc ++ [v])
        | ']' :: r2 => some (.arr (acc ++ [v]), r2)
        | _ => none

/-- Parse object members; `acc` holds the members read so far with JS
duplicate-key semantics.  Called just after the opening brace (or after a
`,`) with whitespace skipped. -/
def parseJFields :
    Nat → List Char → List (String × Json) → Option (Json × List Char)
  | 0, _, _ => none
  | fuel + 1, s, acc =>
    match s with
    | c :: r =>
      if c = rbrace then
        if acc.isEmpty then some (.obj [], r) else none
      else if c = '"' then
        match parseJString fuel r with
        | none => none
        | some (kcs, r1) =>
          match skipJsonWs r1 with
          | ':' :: r2 =>
            match parseJValue fuel (skipJsonWs r2) with
            | none => none
            | some (v, r3) =>
              let acc' := alSet acc (String.mk kcs) v
              match skipJsonWs r3 with
              | ',' :: r4 => parseJFields fuel (skipJsonWs r4) acc'
              | c' :: r4 =>
                if c' = rbrace then some (.obj acc', r4) else none
              | _ => none
          | _ => none
      else none
    | [] => none

end

/-- `JSON.parse`: parse one value surrounded by optional whitespace,
rejecting trailing input.  `none` models a thrown `SyntaxError`. -/
def JSONparse (s : String) : Option Json :=
  match parseJValue (2 * s.data.length + 8) (skipJsonWs s.data) with
  | none => none
  | some (v, r) => if (skipJsonWs r).isEmpty then some v else none

/-! ## JS truthiness and property-key coercion -/

/-- Truthiness of a JSON value under JavaScript coercion: `null`, `false`,
`""` and numeric zero are falsy; objects and arrays are always truthy.  A
JSON numeral is zero exactly when every digit of its mantissa is `0`. -/
def jsTruthy : Json → Bool
  | .null => false
  | .bool b => b
  | .str s => s ≠ ""
  | .num lit =>
    ¬((lit.data.takeWhile (fun c => ¬(c = 'e' ∨ c = 'E'))).all
        (fun c => ¬(isDigit c) ∨ c = '0'))
  | .arr _ => true
  | .obj _ => true

/-- Truthiness of a JS property read (`none` = `undefined`, falsy). -/
def optTruthy : Option Json → Bool
  | none => false
  | some j => jsTruthy j

mutual

/-- JS `ToString` used when a value is taken as an object property key
(`files[file.name] = …`).  Strings are used verbatim — the only case the
service's inputs exercise; numerals keep their lexeme (JS would
re-normalize the numeral, which no claim depends on), arrays join their
elements with `,` rendering `null` as the empty string, and plain objects
render as `[object Object]`. -/
def jsToKey : Json → String
  | .null => "null"
  | .bool b => if b then "true" else "false"
  | .num lit => lit
  | .str s => s
  | .arr xs => String.intercalate "," (jsToKeyElems xs)
  | .obj _ => "[object Object]"

/-- Array elements under `Array.prototype.toString`: `null` (and
`undefined`) render as the empty string. -/
def jsToKeyElems : List Json → List String
  | [] => []
  | .null :: t => "" :: jsToKeyElems t
  | j :: t => jsToKey j :: jsToKeyElems t

end

/-! ## `extractJsonFromContent` / `cleanJsonString`

`CodeGenerationService.extractJsonFromContent` applies two regexes and one
repair pass.  The regexes are modelled by direct leftmost/greedy searches:

* ``/```(?:json)?\s*(\{[\s\S]*\})\s*```/`` — earliest fence followed by an
  optional `json` tag, whitespace and `{`; the greedy capture runs to the
  *last* `}` that is followed by whitespace and a closing fence;
* `/\{[\s\S]*\}/` — first `{` to the last `}`;
* the two content-field repair regexes
  `/"(fileContent|content)":\s*"([^"]*(?:\\.[^"]*)*)"(?=\s*[,}])/g` with a
  replacement callback that backslash-escapes `\ " \n \r \t`.
-/

/-- The backtick character (used for fenced code blocks). -/
def btick : Char := Char.ofNat 96

/-- JS regex `\s` (the whitespace class of ECMAScript). -/
def wsJS (c : Char) : Bool :=
  c = ' ' || c = '\t' || c = '\n' || c = '\r' ||
  c = Char.ofNat 11 || c = Char.ofNat 12 || c = Char.ofNat 0xa0 ||
  c = Char.ofNat 0x1680 ||
  (Char.ofNat 0x2000 ≤ c && c ≤ Char.ofNat 0x200a) ||
  c = Char.ofNat 0x2028 || c = Char.ofNat 0x2029 || c = Char.ofNat 0x202f ||
  c = Char.ofNat 0x205f || c = Char.ofNat 0x3000 || c = Char.ofNat 0xfeff

/-- JS regex `.` excludes these line terminators. -/
def lineTerm (c : Char) : Bool :=
  c = '\n' || c = '\r' || c = Char.ofNat 0x2028 || c = Char.ofNat 0x2029

/-- Greedy capture `(\{[\s\S]*\})\s*` + closing fence: `body` starts at the
`{`; the capture ends at the largest index `j ≥ 1` holding `}` such that
what follows is whitespace and then a fence. -/
def fenceClose (body : List Char) : Option (List Char) :=
  let js := (List.range body.length).filter (fun j =>
    decide (1 ≤ j) && body.getD j ' ' = rbrace &&
      startsWithChars [btick, btick, btick] ((body.drop (j + 1)).dropWhile wsJS))
  match js.getLast? with
  | some j => some (body.take (j + 1))
  | none => none

/-- Try the fenced-block regex at one start position.  After the fence, the
greedy optional `json` tag is taken when present (if it is present, the
variant without it cannot match, since `j` is not whitespace and not `{`). -/
def fenceCaptureAt (s : List Char) : Option (List Char) :=
  if startsWithChars [btick, btick, btick] s then
    let afterTicks := s.drop 3
    let afterLang :=
      if startsWithChars ['j', 's', 'o', 'n'] afterTicks then afterTicks.drop 4
      else afterTicks
    let body := afterLang.dropWhile wsJS
    match body with
    | c :: _ => if c = lbrace then fenceClose body else none
    | [] => none
  else none

/-- Leftmost match of the fenced-block regex (the engine advances the start
position until the whole pattern matches). -/
def firstFenceMatch : List Char → Option (List Char)
  | [] => none
  | s@(_ :: rest) =>
    match fenceCaptureAt s with
    | some cap => some cap
    | none => firstFenceMatch rest

/-- Leftmost-greedy match of `/\{[\s\S]*\}/`: first `{` to last `}`. -/
def braceMatch (s : List Char) : Option (List Char) :=
  match s.findIdx? (· = lbrace) with
  | none => none
  | some i =>
    match ((List.range s.length).filter (fun j => s.getD j ' ' = rbrace)).getLast? with
    | some j => if i < j then some ((s.drop i).take (j - i + 1)) else none
    | none => none

/-- Escaping applied by the repair callback: the five sequential `replace`
calls of the source compose to this character map. -/
def escContentChar (c : Char) : List Char :=
  if c = '\\' then ['\\', '\\']
  else if c = '"' then ['\\', '"']
  else if c = '\n' then ['\\', 'n']
  else if c = '\r' then ['\\', 'r']
  else if c = '\t' then ['\\', 't']
  else [c]

/-- Reachability flags for the group `[^"]*(?:\\.[^"]*)*` over `g`:
position `p` is marked when some prefix `g[0..p)` matches the group.
`a` is the flag of the current position, `b` the flag accumulated so far
for the next one (set by a `\\.` two-character jump). -/
def reachFlags : List Char → Bool → Bool → List Bool
  | [], a, _ => [a]
  | c :: rest, a, b =>
    a :: reachFlags rest (b || (a && c ≠ '"'))
      (a && c = '\\' &&
        (match rest with | d :: _ => ¬(lineTerm d) | [] => false))

/-- The lookahead `(?=\s*[,}])`. -/
def lookaheadOk (rest : List Char) : Bool :=
  match rest.dropWhile wsJS with
  | c :: _ => c = ',' || c = rbrace
  | [] => false

/-- Try the repair regex for one field name at one start position.  On a
match, returns the number of characters consumed (the lookahead is not
consumed) and the replacement text `"field": "<escaped>"` (note the single
normalized space of the source's template literal). -/
def tryFieldMatch (field : List Char) (s : List Char) :
    Option (Nat × List Char) :=
  let pre := '"' :: field ++ ['"', ':']
  if startsWithChars pre s then
    let s1 := s.drop pre.length
    let w := (s1.takeWhile wsJS).length
    match s1.drop w with
    | '"' :: g =>
      let ends := ((reachFlags g true false).enum.filter (fun pf => pf.2)).map
        (fun pf => pf.1)
      let good := ends.filter (fun p =>
        g.getD p ' ' = '"' && lookaheadOk (g.drop (p + 1)))
      match good.getLast? with
      | some p =>
        some (pre.length + w + 1 + p + 1,
          '"' :: field ++ ['"', ':', ' ', '"'] ++
            (g.take p).flatMap escContentChar ++ ['"'])
      | none => none
    | _ => none
  else none

/-- Global (`/g`) replacement scan: leftmost match, replace, continue after
the consumed portion. -/
def replaceFieldGo (field : List Char) : Nat → List Char → List Char
  | 0, s => s
  | _, [] => []
  | fuel + 1, s@(c :: rest) =>
    match tryFieldMatch field s with
    | some (consumed, repl) => repl ++ replaceFieldGo field fuel (s.drop consumed)
    | none => c :: replaceFieldGo field fuel rest

def replaceContentField (field : String) (s : String) : String :=
  String.mk (replaceFieldGo field.data s.data.length s.data)

/-- `CodeGenerationService.cleanJsonString`: parse as-is, else apply the two
repair regexes (`fileContent` then `content`) and retry the parse exactly
once; if still unparseable, return the original string. -/
def cleanJsonString (jsonStr : String) : String :=
  match JSONparse jsonStr with
  | some _ => jsonStr
  | none =>
    let cleaned :=
      replaceContentField "content" (replaceContentField "fileContent" jsonStr)
    match JSONparse cleaned with
    | some _ => cleaned
    | none => jsonStr

/-- `CodeGenerationService.extractJsonFromContent`. -/
def extractJsonFromContent (content : String) : String :=
  match firstFenceMatch content.data with
  | some cap => cleanJsonString (String.mk cap)
  | none =>
    match braceMatch content.data with
    | some m => cleanJsonString (String.mk m)
    | none => content

/-! ## `AppError` and the response parsers -/

/-- Which underlying exception an `AppError`'s `originalError` detail wraps.
V8's `SyntaxError` texts are engine-specific, so the JSON-parse case is a
tag rather than a literal message; the no-files case carries the source's
exact message. -/
inductive ErrorDetail where
  | jsonSyntaxError : ErrorDetail
  | innerMessage (msg : String) : ErrorDetail
  | noDetail : ErrorDetail
deriving Repr, DecidableEq

/-- `AppError(message, statusCode, category, { originalError })`. -/
structure AppError where
  message : String
  statusCode : Nat
  category : String
  detail : ErrorDetail
deriving Repr, DecidableEq

/-- JS property read `j.k` (on non-objects every property is `undefined`). -/
def jProp (j : Json) (k : String) : Option Json :=
  match j with
  | .obj fs => alGet fs k
  | _ => none

/-- One iteration of the `parsed.files.forEach` / `parsed.forEach` callback
in `parseGeneratedResponse`: the if/else-if chain over
`{name,content}`, `{filename,content}`, `{path,content}`,
`{fileName,fileContent}`, each guarded by JS truthiness of both values. -/
def addFileItem (files : List (String × Json)) (file : Json) : List (String × Json) :=
  if optTruthy (jProp file "name") && optTruthy (jProp file "content") then
    alSet files (jsToKey ((jProp file "name").getD .null))
      ((jProp file "content").getD .null)
  else if optTruthy (jProp file "filename") && optTruthy (jProp file "content") then
    alSet files (jsToKey ((jProp file "filename").getD .null))
      ((jProp file "content").getD .null)
  else if optTruthy (jProp file "path") && optTruthy (jProp file "content") then
    alSet files (jsToKey ((jProp file "path").getD .null))
      ((jProp file "content").getD .null)
  else if optTruthy (jProp file "fileName") && optTruthy (jProp file "fileContent") then
    alSet files (jsToKey ((jProp file "fileName").getD .null))
      ((jProp file "fileContent").getD .null)
  else files

/-- The files-normalization block of `parseGeneratedResponse`:
`if (parsed.files) { array → fold; object → use as-is }` else
`if (Array.isArray(parsed)) { fold }`; anything else leaves `files` empty.
(A truthy non-array non-object `parsed.files`, e.g. a string, fails the
`typeof === 'object'` test and also leaves `files` empty.) -/
def normalizeFiles (parsed : Json) : List (String × Json) :=
  if optTruthy (jProp parsed "files") then
    match jProp parsed "files" with
    | some (.arr xs) => xs.foldl addFileItem []
    | some (.obj fs) => fs
    | _ => []
  else
    match parsed with
    | .arr xs => xs.foldl addFileItem []
    | _ => []

/-- `GenerateCodeResponse`: raw JSON values are kept for `message` and
`suggestions` exactly as the source passes them through. -/
structure GenerateCodeResponse where
  files : List (String × Json)
  message : Json
  suggestions : Json
deriving Repr, DecidableEq

/-- `CodeGenerationService.parseGeneratedResponse`.  Both the JSON-parse
failure and the internal `throw new Error('No valid files found in
response')` are caught by the surrounding `catch` and wrapped in the same
`AppError`, differing only in the `originalError` detail. -/
def parseGeneratedResponse (content : String) (framework : String) :
    Except AppError GenerateCodeResponse :=
  match JSONparse (extractJsonFromContent content) with
  | none =>
    .error ⟨"Failed to parse generated code response", 500, "external_api",
      .jsonSyntaxError⟩
  | some parsed =>
    let files := normalizeFiles parsed
    if files.length = 0 then
      .error ⟨"Failed to parse generated code response", 500, "external_api",
        .innerMessage "No valid files found in response"⟩
    else
      .ok
        { files := files
          message :=
            if optTruthy (jProp parsed "message") then
              (jProp parsed "message").getD .null
            else
              .str ("Generated " ++ framework ++ " application successfully")
          suggestions :=
            if optTruthy (jProp parsed "suggestions") then
              (jProp parsed "suggestions").getD .null
            else .arr [] }

structure HistoryMessage where
  role : String
  content : String
deriving Repr, DecidableEq

/-- `GenerateCodeRequest` (`options` is never read by the service and is
omitted). -/
structure GenerateCodeRequest where
  prompt : String
  framework : String
  conversationHistory : Option (List HistoryMessage)
  currentFiles : Option (List (String × String))
deriving Repr, DecidableEq

def hexDigit (n : Nat) : Char :=
  if n < 10 then Char.ofNat ('0'.toNat + n) else Char.ofNat ('a'.toNat + n - 10)

/-- `JSON.stringify` escaping of one string character. -/
def escJsonChar (c : Char) : List Char :=
  if c = '"' then ['\\', '"']
  else if c = '\\' then ['\\', '\\']
  else if c = '\n' then ['\\', 'n']
  else if c = '\r' then ['\\', 'r']
  else if c = '\t' then ['\\', 't']
  else if c = Char.ofNat 8 then ['\\', 'b']
  else if c = Char.ofNat 12 then ['\\', 'f']
  else if c.toNat < 32 then
    ['\\', 'u', '0', '0', hexDigit (c.toNat / 16), hexDigit (c.toNat % 16)]
  else [c]

def jsonQuote (s : String) : String :=
  "\"" ++ String.mk (s.data.flatMap escJsonChar) ++ "\""

/-- `JSON.stringify(conversationHistory)`: an array of
`{"role":…,"content":…}` objects (property order as in the DTO). -/
def stringifyHistory (h : List HistoryMessage) : String :=
  "[" ++
    String.intercalate ","
      (h.map fun m =>
        "\x7b\"role\":" ++ jsonQuote m.role ++ ",\"content\":" ++
          jsonQuote m.content ++ "\x7d") ++
    "]"

/-- `String.prototype.slice(0, n)`. -/
def sliceStr (s : String) (n : Nat) : String :=
  String.mk (s.data.take n)

/-- `CodeGenerationService.generateCacheKey`. -/
def generateCacheKey (request : GenerateCodeRequest) : String :=
  let historyHash :=
    match request.conversationHistory with
    | some h => sliceStr (stringifyHistory h) 100
    | none => ""
  let filesHash :=
    match request.currentFiles with
    | some fs => sliceStr (String.intercalate "," (fs.map Prod.fst)) 50
    | none => ""
  "code_gen:" ++ request.framework ++ ":" ++ sliceStr request.prompt 100 ++
    ":" ++ historyHash ++ ":" ++ filesHash

/-! ## `MemoryCacheService`

TTL + LRU in-memory cache.  The JS `Map` (insertion-ordered, `set` on an
existing key keeps its position) is an association list with unique keys.
Every operation takes the current time `now` explicitly (the source reads
`Date.now()`).  `currentSize` is an `Int` exactly like the JS counter; the
`cleanupInterval` timer and `enableLogging` flag only drive the periodic
sweep (modelled by calling `cleanup` explicitly) and console output. -/

/-- Remove the (single) binding of `k`, as `Map.delete`. -/
def alRemove {β : Type} (l : List (String × β)) (k : String) :
    List (String × β) :=
  match l with
  | [] => []
  | (k', v') :: t => if k' = k then t else (k', v') :: alRemove t k

structure CacheEntry (α : Type) where
  value : α
  expiresAt : Nat
  lastAccessed : Nat
  size : Nat
deriving Repr, DecidableEq

structure CacheStats where
  hits : Nat
  misses : Nat
  sets : Nat
  deletes : Nat
  evictions : Nat
  cleanups : Nat
deriving Repr, DecidableEq

structure MemoryCacheConfig where
  maxEntries : Nat
  defaultTtl : Nat
  maxSize : Nat
deriving Repr, DecidableEq

/-- The constructor's `cacheConfig?.x || default` merging: an absent or
zero (falsy) option falls back to the default. -/
def mkMemoryCacheConfig (maxEntries defaultTtl maxSize : Option Nat) :
    MemoryCacheConfig where
  maxEntries := match maxEntries with
    | some n => if n = 0 then 1000 else n
    | none => 1000
  defaultTtl := match defaultTtl with
    | some n => if n = 0 then 3600 else n
    | none => 3600
  maxSize := match maxSize with
    | some n => if n = 0 then 50 * 1024 * 1024 else n
    | none => 50 * 1024 * 1024

structure MemoryCacheService (α : Type) where
  config : MemoryCacheConfig
  cache : List (String × CacheEntry α)
  currentSize : Int
  stats : CacheStats
deriving Repr, DecidableEq

def mkMemoryCacheService (α : Type) (cfg : MemoryCacheConfig) :
    MemoryCacheService α :=
  ⟨cfg, [], 0, ⟨0, 0, 0, 0, 0, 0⟩⟩

/-- `calculateSize` for string values: `value.length * 2 + 8` (UTF-16 code
units; the examples here are ASCII so Lean's char count coincides). -/
def calculateSizeStr (s : String) : Nat :=
  s.length * 2 + 8

/-- `get`: miss if absent; expired (`expiresAt > 0 && now > expiresAt`) →
delete, adjust size, miss; else touch `lastAccessed` (in place) and hit. -/
def mcGet {α : Type} (c : MemoryCacheService α) (now : Nat) (key : String) :
    Option α × MemoryCacheService α :=
  match alGet c.cache key with
  | none => (none, { c with stats.misses := c.stats.misses + 1 })
  | some entry =>
    if entry.expiresAt > 0 ∧ now > entry.expiresAt then
      (none,
        { c with
          cache := alRemove c.cache key
          currentSize := c.currentSize - entry.size
          stats.misses := c.stats.misses + 1 })
    else
      (some entry.value,
        { c with
          cache := alSet c.cache key { entry with lastAccessed := now }
          stats.hits := c.stats.hits + 1 })

/-- One `evictLRU` call: scan in iteration order for the entry with
`lastAccessed` strictly below the running minimum, starting from
`oldestTime = Date.now()`.  Returns `none` when no entry qualifies
(every `lastAccessed ≥ now`) — the source then removes nothing. -/
def findOldest {α : Type} (l : List (String × CacheEntry α)) (now : Nat) :
    Option String :=
  (l.foldl
    (fun acc kv =>
      if kv.2.lastAccessed < acc.2 then (some kv.1, kv.2.lastAccessed) else acc)
    ((none : Option String), now)).1

def evictLRU {α : Type} (c : MemoryCacheService α) (now : Nat) :
    Option (MemoryCacheService α) :=
  match findOldest c.cache now with
  | none => none
  | some k =>
    match alGet c.cache k with
    | none => none
    | some entry =>
      some
        { c with
          cache := alRemove c.cache k
          currentSize := c.currentSize - entry.size
          stats.evictions := c.stats.evictions + 1 }

/-- First `ensureCapacity` loop: evict while
`currentSize + requiredSize > maxSize && cache.size > 0`.  When `evictLRU`
removes nothing while the condition holds, the source loops forever;
this is modelled by `none` (fuel is an upper bound on possible evictions,
so `none` is returned exactly in that situation). -/
def sizeEvictLoop {α : Type} :
    Nat → MemoryCacheService α → Nat → Nat → Option (MemoryCacheService α)
  | 0, _, _, _ => none
  | fuel + 1, c, now, requiredSize =>
    if c.currentSize + requiredSize > (c.config.maxSize : Int) ∧
        c.cache.length > 0 then
      match evictLRU c now with
      | some c' => sizeEvictLoop fuel c' now requiredSize
      | none => none
    else some c

/-- Second `ensureCapacity` loop: evict while
`cache.size ≥ maxEntries && cache.size > 0`. -/
def countEvictLoop {α : Type} :
    Nat → MemoryCacheService α → Nat → Option (MemoryCacheService α)
  | 0, _, _ => none
  | fuel + 1, c, now =>
    if c.cache.length ≥ c.config.maxEntries ∧ c.cache.length > 0 then
      match evictLRU c now with
      | some c' => countEvictLoop fuel c' now
      | none => none
    else some c

def ensureCapacity {α : Type} (c : MemoryCacheService α) (now : Nat)
    (requiredSize : Nat) : Option (MemoryCacheService α) :=
  match sizeEvictLoop (c.cache.length + 1) c now requiredSize with
  | none => none
  | some c1 => countEvictLoop (c1.cache.length + 1) c1 now

/-- `set`: TTL defaulting by `??`, `expiresAt = ttl > 0 ? now + ttl*1000 : 0`,
capacity enforcement, removal bookkeeping for an overwritten key, insert
(keeping the key's map position when overwriting).  `sz` is `calculateSize`
for the value type.  `none` models the source's non-termination in
`ensureCapacity`. -/
def mcSet {α : Type} (c : MemoryCacheService α) (now : Nat) (key : String)
    (value : α) (ttl : Option Nat) (sz : α → Nat) :
    Option (MemoryCacheService α) :=
  let effectiveTtl := ttl.getD c.config.defaultTtl
  let expiresAt := if effectiveTtl > 0 then now + effectiveTtl * 1000 else 0
  let size := sz value
  match ensureCapacity c now size with
  | none => none
  | some c1 =>
    let c2 :=
      match alGet c1.cache key with
      | some existing =>
        { c1 with currentSize := c1.currentSize - existing.size }
      | none => c1
    some
      { c2 with
        cache := alSet c2.cache key ⟨value, expiresAt, now, size⟩
        currentSize := c2.currentSize + size
        stats.sets := c2.stats.sets + 1 }

def mcDelete {α : Type} (c : MemoryCacheService α) (key : String) :
    MemoryCacheService α :=
  match alGet c.cache key with
  | none => c
  | some entry =>
    { c with
      cache := alRemove c.cache key
      currentSize := c.currentSize - entry.size
      stats.deletes := c.stats.deletes + 1 }

def mcClear {α : Type} (c : MemoryCacheService α) : MemoryCacheService α :=
  { c with cache := [], currentSize := 0 }

/-- `has`: like `get`'s expiry check but without touching `lastAccessed`. -/
def mcHas {α : Type} (c : MemoryCacheService α) (now : Nat) (key : String) :
    Bool × MemoryCacheService α :=
  match alGet c.cache key with
  | none => (false, c)
  | some entry =>
    if entry.expiresAt > 0 ∧ now > entry.expiresAt then
      (false,
        { c with
          cache := alRemove c.cache key
          currentSize := c.currentSize - entry.size })
    else (true, c)

def isExpiredEntry {α : Type} (now : Nat) (e : CacheEntry α) : Bool :=
  e.expiresAt > 0 && now > e.expiresAt

/-- The cleanup sweep: remove every expired entry, subtract the freed size,
bump the `cleanups` counter, return the number removed. -/
def mcCleanup {α : Type} (c : MemoryCacheService α) (now : Nat) :
    Nat × MemoryCacheService α :=
  let removed := c.cache.filter (fun kv => isExpiredEntry now kv.2)
  let sizeFreed : Nat := (removed.map (fun kv => kv.2.size)).sum
  (removed.length,
    { c with
      cache := c.cache.filter (fun kv => !(isExpiredEntry now kv.2))
      currentSize := c.currentSize - sizeFreed
      stats.cleanups := c.stats.cleanups + 1 })

/-! ## `JSON.stringify` of a response (for `calculateSize` on objects) -/

mutual

/-- `JSON.stringify` on parsed-JSON values (numerals keep their lexeme,
which agrees with JS output for the integral literals arising here). -/
def stringifyJson : Json → String
  | .null => "null"
  | .bool b => if b then "true" else "false"
  | .num lit => lit
  | .str s => jsonQuote s
  | .arr xs => "[" ++ String.intercalate "," (stringifyJsonList xs) ++ "]"
  | .obj fs => "\x7b" ++ String.intercalate "," (stringifyJsonFields fs) ++ "\x7d"

def stringifyJsonList : List Json → List String
  | [] => []
  | j :: t => stringifyJson j :: stringifyJsonList t

def stringifyJsonFields : List (String × Json) → List String
  | [] => []
  | (k, v) :: t => (jsonQuote k ++ ":" ++ stringifyJson v) :: stringifyJsonFields t

end

/-- `JSON.stringify` of a `GenerateCodeResponse` (property order
`files`, `message`, `suggestions` as constructed by the source). -/
def stringifyResponse (r : GenerateCodeResponse) : String :=
  stringifyJson (.obj [("files", .obj r.files), ("message", r.message),
    ("suggestions", r.suggestions)])

/-- `calculateSize` for object values: `JSON.stringify(value).length*2+16`. -/
def calculateSizeResponse (r : GenerateCodeResponse) : Nat :=
  (stringifyResponse r).length * 2 + 16

/-! ## `CodeGenerationService.generateCode` / `generateCodeWithStreaming`

The injected collaborators are parameters: `buildPrompt` stands for
`IPromptService.buildGenerationPrompt` and the provider oracle maps
(invocation index, prompt) to the text the provider call resolves with, or
the message of the error it rejects with.  `providerCalls` counts provider
invocations (of either kind).  A `none` result propagates `mcSet`'s
non-termination case. -/

structure OrchestratorState where
  cache : MemoryCacheService GenerateCodeResponse
  providerCalls : Nat
deriving Repr, DecidableEq

/-- `generateCode`: cache lookup → prompt build → provider call → parse →
cache write (TTL 300 s) → return.  A non-`AppError` thrown by the provider
is wrapped as `internal_server`; `AppError`s (from the parser) are
rethrown unchanged. -/
def generateCode (buildPrompt : GenerateCodeRequest → String)
    (provider : Nat → String → Except String String) (now : Nat)
    (request : GenerateCodeRequest) (st : OrchestratorState) :
    Option (Except AppError GenerateCodeResponse × OrchestratorState) :=
  let cacheKey := generateCacheKey request
  match mcGet st.cache now cacheKey with
  | (some cachedResult, cache1) =>
    some (.ok cachedResult, ⟨cache1, st.providerCalls⟩)
  | (none, cache1) =>
    let prompt := buildPrompt request
    match provider st.providerCalls prompt with
    | .error e =>
      some (.error ⟨"Code generation failed", 500, "internal_server",
        .innerMessage e⟩, ⟨cache1, st.providerCalls + 1⟩)
    | .ok generatedContent =>
      match parseGeneratedResponse generatedContent request.framework with
      | .error e => some (.error e, ⟨cache1, st.providerCalls + 1⟩)
      | .ok response =>
        match mcSet cache1 now cacheKey response (some 300)
            calculateSizeResponse with
        | none => none
        | some cache2 =>
          some (.ok response, ⟨cache2, st.providerCalls + 1⟩)

/-- `generateCodeWithStreaming`: prompt build → streaming provider call →
parse → return.  No cache read and no cache write; a non-`AppError`
failure is wrapped as `external_api`. -/
def generateCodeWithStreaming (buildPrompt : GenerateCodeRequest → String)
    (providerStream : Nat → String → Except String String) (now : Nat)
    (request : GenerateCodeRequest) (st : OrchestratorState) :
    Except AppError GenerateCodeResponse × OrchestratorState :=
  let prompt := buildPrompt request
  match providerStream st.providerCalls prompt with
  | .error e =>
    (.error ⟨"Streaming code generation failed", 500, "external_api",
      .innerMessage e⟩, ⟨st.cache, st.providerCalls + 1⟩)
  | .ok generatedContent =>
    match parseGeneratedResponse generatedContent request.framework with
    | .error e => (.error e, ⟨st.cache, st.providerCalls + 1⟩)
    | .ok response => (.ok response, ⟨st.cache, st.providerCalls + 1⟩)

/-! ## `GeminiProvider.generateContent` retry loop -/

/-- JS `String.prototype.includes`. -/
def strIncludes (s pat : String) : Bool :=
  decide (pat.data <:+: s.data)

/-- JS `String.prototype.trim` (strip `\s` from both ends). -/
def jsTrim (s : String) : String :=
  String.mk (((s.data.dropWhile wsJS).reverse.dropWhile wsJS).reverse)

/-- JS `String.prototype.toLowerCase` (ASCII case folding suffices for the
error-classification keywords). -/
def strToLower (s : String) : String :=
  String.mk (s.data.map Char.toLower)

/-- `GeminiProvider.isNonRetryableError`. -/
def isNonRetryableError (msg : String) : Bool :=
  let m := strToLower msg
  strIncludes m "api key" || strIncludes m "authentication" ||
    strIncludes m "quota" || strIncludes m "billing" ||
    strIncludes m "invalid" || strIncludes m "malformed"

/-- `GeminiProvider.validatePrompt`: returns the thrown message, if any
(an empty prompt is falsy and hits the first test). -/
def validatePrompt (prompt : String) : Option String :=
  if prompt = "" then some "Prompt must be a non-empty string"
  else if (jsTrim prompt).length = 0 then
    some "Prompt cannot be empty or whitespace only"
  else if prompt.length > 100000 then
    some "Prompt is too long (max 100,000 characters)"
  else none

/-- Outcome of a `generateContent` call: the value or thrown message, the
number of attempts made, and the backoff delays slept between attempts. -/
structure GenContentResult where
  result : Except String String
  attempts : Nat
  delays : List Nat
deriving Repr

/-- The wrap-up throw after the loop:
`Gemini generation failed: ${lastError?.message || 'Unknown error'}`
(`lastErr = ""` models `lastError = null`). -/
def geminiFailMsg (lastErr : String) : String :=
  "Gemini generation failed: " ++ (if lastErr = "" then "Unknown error" else lastErr)

/-- Outcome of one `try` body: `oracle n` is what the `n`-th (1-based)
`makeRequest` resolves or rejects with; a returned text is
`result.text || ''` and a blank text raises
`Empty response received from Gemini` inside the `try`, so it is retried
like any other retryable error. -/
def attemptOutcome (oracle : Nat → Except String String) (a : Nat) :
    Except String String :=
  match oracle a with
  | .error e => .error e
  | .ok text =>
    if jsTrim text = "" then .error "Empty response received from Gemini"
    else .ok text

/-- The attempt loop of `generateContent`.  `remaining` counts attempts
still allowed (`attempt ≤ retries ↔ remaining > 0`); the backoff
`min(1000·2^(attempt-1), 10000)` is slept only when another attempt
follows. -/
def generateContentLoop (oracle : Nat → Except String String) :
    Nat → Nat → String → GenContentResult
  | 0, attemptsDone, lastErr => ⟨.error (geminiFailMsg lastErr), attemptsDone, []⟩
  | remaining + 1, attemptsDone, lastErr =>
    let attempt := attemptsDone + 1
    match attemptOutcome oracle attempt with
    | .ok text => ⟨.ok text, attempt, []⟩
    | .error e =>
      if isNonRetryableError e then ⟨.error (geminiFailMsg e), attempt, []⟩
      else if remaining > 0 then
        let delay := min (1000 * 2 ^ (attempt - 1)) 10000
        let r := generateContentLoop oracle remaining attempt e
        ⟨r.result, r.attempts, delay :: r.delays⟩
      else ⟨.error (geminiFailMsg e), attempt, []⟩
  termination_by remaining => remaining

/-- `GeminiProvider.generateContent` with `retries = config.retries`. -/
def generateContent (oracle : Nat → Except String String) (retries : Nat)
    (prompt : String) : GenContentResult :=
  match validatePrompt prompt with
  | some e => ⟨.error e, 0, []⟩
  | none => generateContentLoop oracle retries 0 ""

/-! ## `ServiceContainer`

Tokens are strings.  A constructor function is modelled by the metadata a
decorator-based system could attach to it (`@Injectable`'s
`__dependencies`); the source's `extractDependencies`, however, ignores it
and returns `[]` ("For now, we'll return an empty array").  Instantiation
(`new implementation(...deps)`) is modelled symbolically.  On a thrown
error the container object's intermediate mutations are not observed by
the claims, so errors carry only the message. -/

structure ServiceImpl where
  name : String
  declaredDeps : List String
deriving Repr, DecidableEq

structure ServiceRegistration where
  implementation : ServiceImpl
  singleton : Bool
  dependencies : List String
deriving Repr, DecidableEq

inductive ServiceInstance where
  | mk (implName : String) (args : List ServiceInstance)

structure ServiceContainer where
  services : List (String × ServiceRegistration)
  instances : List (String × ServiceInstance)
  resolutionStack : List String

def emptyContainer : ServiceContainer := ⟨[], [], []⟩

/-- `ServiceContainer.extractDependencies`: returns the empty list for
every implementation ("rely on manual dependency specification"). -/
def extractDependencies (_implementation : ServiceImpl) : List String := []

/-- `ServiceContainer.register`. -/
def register (c : ServiceContainer) (token : String) (implementation : ServiceImpl)
    (singleton : Bool) : Except String ServiceContainer :=
  if (alGet c.services token).isSome then
    .error ("Service with token " ++ token ++ " is already registered")
  else
    .ok { c with
      services := alSet c.services token
        ⟨implementation, singleton, extractDependencies implementation⟩ }

/-- `ServiceContainer.registerInstance`. -/
def registerInstance (c : ServiceContainer) (token : String)
    (inst : ServiceInstance) : Except String ServiceContainer :=
  if (alGet c.services token).isSome ∨ (alGet c.instances token).isSome then
    .error ("Service with token " ++ token ++ " is already registered")
  else
    .ok { c with instances := alSet c.instances token inst }

/-- `ServiceContainer.resolveDependencies`: `dependencies.map(dep =>
this.resolve(dep))`, with the recursive `resolve` passed in. -/
def resolveList
    (f : ServiceContainer → String →
      Except String (ServiceInstance × ServiceContainer)) :
    ServiceContainer → List String →
      Except String (List ServiceInstance × ServiceContainer)
  | c, [] => .ok ([], c)
  | c, d :: ds =>
    match f c d with
    | .error e => .error e
    | .ok (inst, c') =>
      match resolveList f c' ds with
      | .error e => .error e
      | .ok (insts, c'') => .ok (inst :: insts, c'')

/-- `ServiceContainer.resolve`: circular-dependency check against the
resolution stack, cached-instance lookup, registration lookup, recursive
dependency resolution, instantiation, singleton caching, stack pop.  The
fuel is unreachable given the stack check (depth is bounded by the number
of distinct tokens) and only makes the recursion structural. -/
def resolve : Nat → ServiceContainer → String →
    Except String (ServiceInstance × ServiceContainer)
  | 0, _, _ => .error "unreachable: resolution depth exceeded the fuel"
  | fuel + 1, c, token =>
    if c.resolutionStack.contains token then
      .error ("Circular dependency detected: " ++
        String.intercalate " -> " c.resolutionStack ++ " -> " ++ token)
    else
      match alGet c.instances token with
      | some inst => .ok (inst, c)
      | none =>
        match alGet c.services token with
        | none => .error ("Service with token " ++ token ++ " is not registered")
        | some registration =>
          let c1 := { c with resolutionStack := c.resolutionStack ++ [token] }
          match resolveList (resolve fuel) c1 registration.dependencies with
          | .error e => .error e
          | .ok (args, c2) =>
            let inst := ServiceInstance.mk registration.implementation.name args
            let c3 :=
              if registration.singleton then
                { c2 with instances := alSet c2.instances token inst }
              else c2
            .ok (inst, { c3 with
              resolutionStack := c3.resolutionStack.filter (· ≠ token) })

instance {ε α : Type _} [DecidableEq ε] [DecidableEq α] :
    DecidableEq (Except ε α) := fun x y =>
  match x, y with
  | .error a, .error b =>
    if h : a = b then isTrue (by rw [h])
    else isFalse (fun hh => h (by injection hh))
  | .ok a, .ok b =>
    if h : a = b then isTrue (by rw [h])
    else isFalse (fun hh => h (by injection hh))
  | .error _, .ok _ => isFalse (fun hh => by injection hh)
  | .ok _, .error _ => isFalse (fun hh => by injection hh)

/-! ## Concrete fixtures

Inputs used by witnesses, counterexamples and the concrete halves of the
claims.  They mirror the spec's own test scenarios. -/

/-- The invariant of claim C9: the tracked `currentSize` equals the sum of
the `size` fields of the stored entries, and stored keys are unique (the
JS `Map` guarantees key uniqueness by construction). -/
def sizeSum {α : Type} (l : List (String × CacheEntry α)) : Nat :=
  (l.map (fun kv => kv.2.size)).sum

def cacheInv {α : Type} (c : MemoryCacheService α) : Prop :=
  (c.cache.map Prod.fst).Nodup ∧ c.currentSize = (sizeSum c.cache : Int)

/-- §8 end-to-end request. -/
def fixtureReq : GenerateCodeRequest :=
  ⟨"Create a hello world page", "react", none, none⟩

def fixturePayload : String :=
  "\x7b\"files\": \x7b\"App.jsx\": \"export default 1\"\x7d, \"message\": \"done\"\x7d"

def fixtureProvider : Nat → String → Except String String :=
  fun _ _ => .ok fixturePayload

def fixtureBuildPrompt : GenerateCodeRequest → String := fun r => r.prompt

def fixtureCache0 : MemoryCacheService GenerateCodeResponse :=
  mkMemoryCacheService _ (mkMemoryCacheConfig none none none)

def fixtureOrch0 : OrchestratorState := ⟨fixtureCache0, 0⟩

def fixtureResp : GenerateCodeResponse :=
  ⟨[("App.jsx", .str "export default 1")], .str "done", .arr []⟩

/-- The state after the first (miss) `generateCode` call at `t = 1000`. -/
def fixtureOrch1 : OrchestratorState :=
  (generateCode fixtureBuildPrompt fixtureProvider 1000 fixtureReq
    fixtureOrch0).elim fixtureOrch0 Prod.snd

/-- The intermediate cache after the miss lookup of the first call. -/
def fixtureCacheMiss : MemoryCacheService GenerateCodeResponse :=
  (mcGet fixtureOrch0.cache 1000 (generateCacheKey fixtureReq)).2

/-- C2 counterexample: the spec's repair-recovery scenario — an unescaped
quote inside a `content` field, wrapped in a fenced block. -/
def quoteExample : String :=
  "```json\n\x7b\"files\": [\x7b\"name\": \"a.js\", \"content\": \"say \"hi\" now\"\x7d]\x7d\n```"

/-- C2 amended positive scenario: a raw newline (an unescaped control
character) inside a `content` field, wrapped in a fenced block. -/
def newlineExample : String :=
  "```json\n\x7b\"files\": [\x7b\"name\": \"a.js\", \"content\": \"line1\nline2\"\x7d]\x7d\n```"

/-- The capture the fenced-block regex extracts from `newlineExample`. -/
def newlineCapture : String :=
  "\x7b\"files\": [\x7b\"name\": \"a.js\", \"content\": \"line1\nline2\"\x7d]\x7d"

/-- C3 payload shapes of the spec's repair-normalization property. -/
def payloadMap : String :=
  "\x7b\"files\": \x7b\"a.js\": \"x\", \"b.js\": \"y\"\x7d\x7d"

def payloadNameContent : String :=
  "\x7b\"files\": [\x7b\"name\": \"a.js\", \"content\": \"x\"\x7d, \x7b\"name\": \"b.js\", \"content\": \"y\"\x7d]\x7d"

def payloadPathContent : String :=
  "\x7b\"files\": [\x7b\"path\": \"a.js\", \"content\": \"x\"\x7d, \x7b\"path\": \"b.js\", \"content\": \"y\"\x7d]\x7d"

def payloadFileNameFileContent : String :=
  "\x7b\"files\": [\x7b\"fileName\": \"a.js\", \"fileContent\": \"x\"\x7d, \x7b\"fileName\": \"b.js\", \"fileContent\": \"y\"\x7d]\x7d"

/-- C3 counterexample: `path` for the path together with `fileContent` for
the content — a combination the claim's cross-product reading promises. -/
def payloadPathFileContent : String :=
  "\x7b\"files\": [\x7b\"path\": \"a.js\", \"fileContent\": \"x\"\x7d]\x7d"

/-- The canonical map all supported shapes fold to. -/
def canonicalFiles : List (String × Json) :=
  [("a.js", .str "x"), ("b.js", .str "y")]

/-- C4 counterexample cache: `maxSize = 10`, below any string's size. -/
def smallCache : MemoryCacheService String :=
  mkMemoryCacheService String (mkMemoryCacheConfig (some 2) none (some 10))

def smallCacheAfter : MemoryCacheService String :=
  (mcSet smallCache 5 "k" "0123456789" (some 300) calculateSizeStr).getD smallCache

/-- C6 LRU scenario states (`maxEntries = 2`; times 1,2,3,4). -/
def lruCache0 : MemoryCacheService String :=
  mkMemoryCacheService String (mkMemoryCacheConfig (some 2) none none)

def lruCache1 : MemoryCacheService String :=
  (mcSet lruCache0 1 "A" "x" (some 300) calculateSizeStr).getD lruCache0

def lruCache2 : MemoryCacheService String :=
  (mcSet lruCache1 2 "B" "y" (some 300) calculateSizeStr).getD lruCache0

def lruCache3 : MemoryCacheService String :=
  (mcGet lruCache2 3 "A").2

/-- C5: register `A` (whose constructor declares a dependency on `B`)… -/
def containerA : ServiceContainer :=
  (register emptyContainer "A" ⟨"AImpl", ["B"]⟩ false).toOption.getD
    emptyContainer

/-- …and `B` (declaring a dependency on `A`). -/
def containerAB : ServiceContainer :=
  (register containerA "B" ⟨"BImpl", ["A"]⟩ false).toOption.getD emptyContainer

/-- The same two services wired the way the container's documentation
promises (`dependencies` actually recorded), to exhibit that the cycle
check itself works when dependencies are present. -/
def containerWired : ServiceContainer :=
  ⟨[("A", ⟨⟨"AImpl", ["B"]⟩, false, ["B"]⟩),
    ("B", ⟨⟨"BImpl", ["A"]⟩, false, ["A"]⟩)], [], []⟩

/-- C3: the `filename`+`content` array shape. -/
def payloadFilenameContent : String :=
  "\x7b\"files\": [\x7b\"filename\": \"a.js\", \"content\": \"x\"\x7d, \x7b\"filename\": \"b.js\", \"content\": \"y\"\x7d]\x7d"

/-- C2 witness for the still-unparseable case. -/
def garbageContent : String := "no structured output at all"

/-- C7: a provider failing (retryably) on attempts 1 and 2, succeeding on 3. -/
def oracleFailTwice : Nat → Except String String :=
  fun n => if n ≤ 2 then .error "socket hang up" else .ok "hello"

/-- C7: a provider failing retryably on every attempt. -/
def oracleAlwaysFail : Nat → Except String String :=
  fun _ => .error "socket hang up"

/-! # Theorems -/

/-! ## Association-list lemmas -/

theorem alGet_alSet_self {β : Type} (l : List (String × β)) (k : String)
    (v : β) : alGet (alSet l k v) k = some v := by
  induction l with
  | nil => simp [alSet, alGet]
  | cons kv t ih =>
    obtain ⟨k', v'⟩ := kv
    by_cases h : k' = k
    · simp [alSet, alGet, h]
    · simp [alSet, alGet, h, ih]

theorem alGet_eq_none_iff {β : Type} (l : List (String × β)) (k : String) :
    alGet l k = none ↔ k ∉ l.map Prod.fst := by
  induction l with
  | nil => simp [alGet]
  | cons kv t ih =>
    obtain ⟨k', v'⟩ := kv
    by_cases h : k' = k
    · simp [alGet, h]
    · simp [alGet, h, ih, Ne.symm h]

theorem keys_alSet_of_get_some {β : Type} {l : List (String × β)}
    {k : String} {e : β} (v : β) (h : alGet l k = some e) :
    (alSet l k v).map Prod.fst = l.map Prod.fst := by
  induction l with
  | nil => simp [alGet] at h
  | cons kv t ih =>
    obtain ⟨k', v'⟩ := kv
    by_cases hk : k' = k
    · simp [alSet, hk]
    · simp [alGet, hk] at h
      simp [alSet, hk, ih h]

theorem keys_alSet_of_get_none {β : Type} {l : List (String × β)}
    {k : String} (v : β) (h : alGet l k = none) :
    (alSet l k v).map Prod.fst = l.map Prod.fst ++ [k] := by
  induction l with
  | nil => simp [alSet]
  | cons kv t ih =>
    obtain ⟨k', v'⟩ := kv
    by_cases hk : k' = k
    · simp [alGet, hk] at h
    · simp [alGet, hk] at h
      simp [alSet, hk, ih h]

theorem nodup_keys_alSet {β : Type} {l : List (String × β)} (k : String)
    (v : β) (hnd : (l.map Prod.fst).Nodup) :
    ((alSet l k v).map Prod.fst).Nodup := by
  cases h : alGet l k with
  | some e => rw [keys_alSet_of_get_some v h]; exact hnd
  | none =>
    rw [keys_alSet_of_get_none v h]
    have hk : k ∉ l.map Prod.fst := (alGet_eq_none_iff l k).mp h
    refine hnd.append (List.nodup_singleton k) ?_
    intro a ha hb
    rw [List.mem_singleton] at hb
    exact hk (hb ▸ ha)

theorem keys_alRemove_sublist {β : Type} (l : List (String × β)) (k : String) :
    List.Sublist ((alRemove l k).map Prod.fst) (l.map Prod.fst) := by
  induction l with
  | nil => simp [alRemove]
  | cons kv t ih =>
    obtain ⟨k', v'⟩ := kv
    by_cases hk : k' = k
    · simp only [alRemove, if_pos hk, List.map_cons]
      exact List.sublist_cons_self _ _
    · simp only [alRemove, if_neg hk, List.map_cons]
      exact ih.cons₂ _

theorem nodup_keys_alRemove {β : Type} {l : List (String × β)} (k : String)
    (hnd : (l.map Prod.fst).Nodup) : ((alRemove l k).map Prod.fst).Nodup :=
  hnd.sublist (keys_alRemove_sublist l k)

theorem alGet_of_mem_nodup {β : Type} {l : List (String × β)} {k : String}
    {e : β} (hmem : (k, e) ∈ l) (hnd : (l.map Prod.fst).Nodup) :
    alGet l k = some e := by
  induction l with
  | nil => cases hmem
  | cons kv t ih =>
    obtain ⟨k', v'⟩ := kv
    rcases List.mem_cons.mp hmem with h | h
    · injection h with h1 h2
      subst h1
      subst h2
      simp [alGet]
    · have hk : k' ≠ k := by
        rintro rfl
        exact (List.nodup_cons.mp hnd).1 (List.mem_map.mpr ⟨(k', e), h, rfl⟩)
      simp only [alGet, if_neg hk]
      exact ih h (List.nodup_cons.mp hnd).2

theorem sizeSum_alRemove_add {α : Type} {l : List (String × CacheEntry α)}
    {k : String} {e : CacheEntry α} (h : alGet l k = some e) :
    sizeSum (alRemove l k) + e.size = sizeSum l := by
  induction l with
  | nil => simp [alGet] at h
  | cons kv t ih =>
    obtain ⟨k', v'⟩ := kv
    by_cases hk : k' = k
    · simp only [alGet, if_pos hk] at h
      obtain rfl : v' = e := by injection h
      simp [alRemove, if_pos hk, sizeSum, Nat.add_comm]
    · simp only [alGet, if_neg hk] at h
      simp only [alRemove, if_neg hk, sizeSum, List.map_cons, List.sum_cons]
      have := ih h
      simp only [sizeSum] at this
      omega

theorem sizeSum_alSet_of_none {α : Type} {l : List (String × CacheEntry α)}
    {k : String} (v : CacheEntry α) (h : alGet l k = none) :
    sizeSum (alSet l k v) = sizeSum l + v.size := by
  induction l with
  | nil => simp [alSet, sizeSum]
  | cons kv t ih =>
    obtain ⟨k', v'⟩ := kv
    by_cases hk : k' = k
    · simp [alGet, hk] at h
    · simp only [alGet, if_neg hk] at h
      simp only [alSet, if_neg hk, sizeSum, List.map_cons, List.sum_cons]
      have := ih h
      simp only [sizeSum] at this
      omega

theorem sizeSum_alSet_of_some {α : Type} {l : List (String × CacheEntry α)}
    {k : String} {e : CacheEntry α} (v : CacheEntry α)
    (h : alGet l k = some e) :
    sizeSum (alSet l k v) + e.size = sizeSum l + v.size := by
  induction l with
  | nil => simp [alGet] at h
  | cons kv t ih =>
    obtain ⟨k', v'⟩ := kv
    by_cases hk : k' = k
    · simp only [alGet, if_pos hk] at h
      obtain rfl : v' = e := by injection h
      simp only [alSet, if_pos hk, sizeSum, List.map_cons, List.sum_cons]
      omega
    · simp only [alGet, if_neg hk] at h
      simp only [alSet, if_neg hk, sizeSum, List.map_cons, List.sum_cons]
      have := ih h
      simp only [sizeSum] at this
      omega

theorem sizeSum_filter_add {α : Type} (l : List (String × CacheEntry α))
    (p : String × CacheEntry α → Bool) :
    sizeSum (l.filter p) + sizeSum (l.filter (fun x => !(p x))) = sizeSum l := by
  induction l with
  | nil => simp [sizeSum]
  | cons kv t ih =>
    simp only [sizeSum] at ih ⊢
    cases hp : p kv <;>
      simp [List.filter_cons, hp] <;> omega

/-! ## Cache-operation lemmas -/

theorem evictLRU_facts {α : Type} {c c' : MemoryCacheService α} {now : Nat}
    (h : evictLRU c now = some c') :
    c'.config = c.config ∧ (cacheInv c → cacheInv c') ∧
      c'.currentSize ≤ c.currentSize := by
  unfold evictLRU at h
  split at h
  · cases h
  · rename_i k hf
    split at h
    · cases h
    · rename_i e hg
      injection h with h'
      subst h'
      refine ⟨rfl, ?_, ?_⟩
      · intro hinv
        refine ⟨nodup_keys_alRemove k hinv.1, ?_⟩
        have hs := sizeSum_alRemove_add hg
        have := hinv.2
        simp only at *
        omega
      · simp only
        omega

theorem cacheInv_mcGet {α : Type} {c : MemoryCacheService α} {now : Nat}
    {key : String} (hinv : cacheInv c) : cacheInv (mcGet c now key).2 := by
  unfold mcGet
  split
  · exact hinv
  · rename_i e hg
    split
    · refine ⟨nodup_keys_alRemove key hinv.1, ?_⟩
      have hs := sizeSum_alRemove_add hg
      have := hinv.2
      simp only at *
      omega
    · refine ⟨?_, ?_⟩
      · exact nodup_keys_alSet key _ hinv.1
      · have hs := sizeSum_alSet_of_some { e with lastAccessed := now } hg
        have := hinv.2
        simp only at *
        omega

theorem sizeEvictLoop_props {α : Type} :
    ∀ (fuel : Nat) (c c' : MemoryCacheService α) (now req : Nat),
      sizeEvictLoop fuel c now req = some c' →
      c'.config = c.config ∧ (cacheInv c → cacheInv c') ∧
        c'.currentSize ≤ c.currentSize ∧
        (c'.currentSize + req ≤ (c'.config.maxSize : Int) ∨
          c'.cache.length = 0)
  | 0, c, c', now, req, h => by cases h
  | fuel + 1, c, c', now, req, h => by
    unfold sizeEvictLoop at h
    split at h
    · rename_i hcond
      split at h
      · rename_i c1 hev
        obtain ⟨hcfg, hinv, hle, hpost⟩ :=
          sizeEvictLoop_props fuel c1 c' now req h
        obtain ⟨hcfg1, hinv1, hle1⟩ := evictLRU_facts hev
        exact ⟨hcfg.trans hcfg1, fun hi => hinv (hinv1 hi),
          hle.trans hle1, hpost⟩
      · cases h
    · rename_i hcond
      injection h with h'
      subst h'
      refine ⟨rfl, fun hi => hi, le_refl _, ?_⟩
      rcases not_and_or.mp hcond with hA | hB
      · exact Or.inl (by omega)
      · exact Or.inr (by omega)

theorem countEvictLoop_props {α : Type} :
    ∀ (fuel : Nat) (c c' : MemoryCacheService α) (now : Nat),
      countEvictLoop fuel c now = some c' →
      c'.config = c.config ∧ (cacheInv c → cacheInv c') ∧
        c'.currentSize ≤ c.currentSize ∧
        (c'.cache.length < c'.config.maxEntries ∨ c'.cache.length = 0)
  | 0, c, c', now, h => by cases h
  | fuel + 1, c, c', now, h => by
    unfold countEvictLoop at h
    split at h
    · rename_i hcond
      split at h
      · rename_i c1 hev
        obtain ⟨hcfg, hinv, hle, hpost⟩ := countEvictLoop_props fuel c1 c' now h
        obtain ⟨hcfg1, hinv1, hle1⟩ := evictLRU_facts hev
        exact ⟨hcfg.trans hcfg1, fun hi => hinv (hinv1 hi),
          hle.trans hle1, hpost⟩
      · cases h
    · rename_i hcond
      injection h with h'
      subst h'
      refine ⟨rfl, fun hi => hi, le_refl _, ?_⟩
      rcases not_and_or.mp hcond with hA | hB
      · exact Or.inl (by omega)
      · exact Or.inr (by omega)

/-- With an empty cache the count loop exits immediately. -/
theorem countEvictLoop_of_empty {α : Type} (fuel : Nat)
    (c : MemoryCacheService α) (now : Nat) (hl : c.cache.length = 0) :
    countEvictLoop (fuel + 1) c now = some c := by
  unfold countEvictLoop
  rw [if_neg]
  omega

theorem ensureCapacity_props {α : Type} {c c1 : MemoryCacheService α}
    {now req : Nat} (h : ensureCapacity c now req = some c1) :
    c1.config = c.config ∧ (cacheInv c → cacheInv c1) ∧
      (c1.currentSize + req ≤ (c1.config.maxSize : Int) ∨
        c1.cache.length = 0) ∧
      (c1.cache.length < c1.config.maxEntries ∨ c1.cache.length = 0) := by
  unfold ensureCapacity at h
  split at h
  · cases h
  · rename_i cA hsz
    obtain ⟨hcfgA, hinvA, hleA, hpostA⟩ :=
      sizeEvictLoop_props _ c cA now req hsz
    obtain ⟨hcfgC, hinvC, hleC, hpostC⟩ :=
      countEvictLoop_props _ cA c1 now h
    refine ⟨hcfgC.trans hcfgA, fun hi => hinvC (hinvA hi), ?_, hpostC⟩
    rcases hpostA with hA | hA
    · exact Or.inl (by rw [hcfgC]; omega)
    · have := countEvictLoop_of_empty cA.cache.length cA now hA
      rw [show cA.cache.length + 1 = cA.cache.length + 1 from rfl] at h
      rw [this] at h
      injection h with h'
      subst h'
      exact Or.inr hA

theorem mcSet_facts {α : Type} {c c' : MemoryCacheService α} {now : Nat}
    {key : String} {v : α} {ttl : Option Nat} {sz : α → Nat}
    (h : mcSet c now key v ttl sz = some c') :
    c'.config = c.config ∧ (cacheInv c → cacheInv c') ∧
      alGet c'.cache key = some
        ⟨v, (if ttl.getD c.config.defaultTtl > 0 then
              now + ttl.getD c.config.defaultTtl * 1000 else 0), now, sz v⟩ ∧
      (1 ≤ c.config.maxEntries → c'.cache.length ≤ c'.config.maxEntries) ∧
      (cacheInv c → sz v ≤ c.config.maxSize →
        c'.currentSize ≤ (c'.config.maxSize : Int)) := by
  simp only [mcSet] at h
  split at h
  · cases h
  · rename_i c1 hcap
    obtain ⟨hcfg1, hinv1, hsize1, hcount1⟩ := ensureCapacity_props hcap
    split at h
    case _ existing hex =>
      injection h with h'
      subst h'
      refine ⟨hcfg1, ?_, ?_, ?_, ?_⟩
      · intro hi
        have hi1 := hinv1 hi
        refine ⟨nodup_keys_alSet key _ hi1.1, ?_⟩
        have hs := sizeSum_alSet_of_some
          (⟨v, if ttl.getD c.config.defaultTtl > 0 then
            now + ttl.getD c.config.defaultTtl * 1000 else 0, now, sz v⟩)
          hex
        have := hi1.2
        simp only at *
        omega
      · exact alGet_alSet_self c1.cache key _
      · intro hmax
        have hlen := keys_alSet_of_get_some
          (⟨v, if ttl.getD c.config.defaultTtl > 0 then
            now + ttl.getD c.config.defaultTtl * 1000 else 0, now, sz v⟩ :
            CacheEntry α)
          hex
        have h2 := congrArg List.length hlen
        simp only [List.length_map] at h2
        rw [hcfg1] at hcount1 ⊢
        simp only at *
        omega
      · intro hi hsz
        rcases hsize1 with hs | hs
        · rw [hcfg1] at hs ⊢
          have hnn : (0 : Int) ≤ (existing.size : Int) := Int.ofNat_nonneg _
          simp only at *
          omega
        · have hcache : c1.cache = [] := List.length_eq_zero.mp hs
          rw [hcache] at hex
          cases hex
    case _ hex =>
      injection h with h'
      subst h'
      refine ⟨hcfg1, ?_, ?_, ?_, ?_⟩
      · intro hi
        have hi1 := hinv1 hi
        refine ⟨nodup_keys_alSet key _ hi1.1, ?_⟩
        have hs := sizeSum_alSet_of_none
          (⟨v, if ttl.getD c.config.defaultTtl > 0 then
            now + ttl.getD c.config.defaultTtl * 1000 else 0, now, sz v⟩)
          hex
        have := hi1.2
        simp only at *
        omega
      · exact alGet_alSet_self c1.cache key _
      · intro hmax
        have hlen := keys_alSet_of_get_none
          (⟨v, if ttl.getD c.config.defaultTtl > 0 then
            now + ttl.getD c.config.defaultTtl * 1000 else 0, now, sz v⟩ :
            CacheEntry α)
          hex
        have h2 := congrArg List.length hlen
        simp only [List.length_map, List.length_append,
          List.length_singleton] at h2
        rw [hcfg1] at hcount1 ⊢
        simp only at *
        omega
      · intro hi hsz
        rcases hsize1 with hs | hs
        · rw [hcfg1] at hs ⊢
          simp only at *
          omega
        · have hcache : c1.cache = [] := List.length_eq_zero.mp hs
          have hzero : c1.currentSize = 0 := by
            have h3 := (hinv1 hi).2
            rw [hcache] at h3
            simpa [sizeSum] using h3
          rw [hcfg1]
          simp only at *
          omega

theorem cacheInv_mcDelete {α : Type} {c : MemoryCacheService α}
    {key : String} (hinv : cacheInv c) : cacheInv (mcDelete c key) := by
  unfold mcDelete
  split
  · exact hinv
  · rename_i e hg
    refine ⟨nodup_keys_alRemove key hinv.1, ?_⟩
    have hs := sizeSum_alRemove_add hg
    have := hinv.2
    simp only at *
    omega

theorem cacheInv_mcClear {α : Type} (c : MemoryCacheService α) :
    cacheInv (mcClear c) := by
  exact ⟨List.nodup_nil, by simp [mcClear, sizeSum]⟩

theorem cacheInv_mcHas {α : Type} {c : MemoryCacheService α} {now : Nat}
    {key : String} (hinv : cacheInv c) : cacheInv (mcHas c now key).2 := by
  unfold mcHas
  split
  · exact hinv
  · rename_i e hg
    split
    · refine ⟨nodup_keys_alRemove key hinv.1, ?_⟩
      have hs := sizeSum_alRemove_add hg
      have := hinv.2
      simp only at *
      omega
    · exact hinv

theorem cacheInv_mcCleanup {α : Type} {c : MemoryCacheService α} {now : Nat}
    (hinv : cacheInv c) : cacheInv (mcCleanup c now).2 := by
  refine ⟨?_, ?_⟩
  · exact hinv.1.sublist ((List.filter_sublist _).map Prod.fst)
  · have hs := sizeSum_filter_add c.cache (fun kv => isExpiredEntry now kv.2)
    have := hinv.2
    simp only [mcCleanup, sizeSum] at *
    omega

/-- C9: every cache operation preserves the size-accounting invariant —
unique keys and `currentSize` equal to the sum of the stored entries'
`size` fields: `get` (including its expiry deletion), `set` (including
overwrites; when it returns), `delete`, `clear`, `has`, the cleanup sweep
and LRU eviction. -/
theorem claim_C9 {α : Type} (c : MemoryCacheService α) (now : Nat)
    (key : String) (v : α) (ttl : Option Nat) (sz : α → Nat)
    (hinv : cacheInv c) :
    cacheInv (mcGet c now key).2 ∧
    (∀ c', mcSet c now key v ttl sz = some c' → cacheInv c') ∧
    cacheInv (mcDelete c key) ∧
    cacheInv (mcClear c) ∧
    cacheInv (mcHas c now key).2 ∧
    cacheInv (mcCleanup c now).2 ∧
    (∀ c', evictLRU c now = some c' → cacheInv c') :=
  ⟨cacheInv_mcGet hinv,
    fun _ h => (mcSet_facts h).2.1 hinv,
    cacheInv_mcDelete hinv,
    cacheInv_mcClear c,
    cacheInv_mcHas hinv,
    cacheInv_mcCleanup hinv,
    fun _ h => (evictLRU_facts h).2.1 hinv⟩

theorem claim_C9_witness :
    cacheInv (mcGet lruCache2 3 "A").2 ∧ cacheInv (mcCleanup lruCache2 3).2 :=
  ⟨(claim_C9 lruCache2 3 "A" "q" (some 60) calculateSizeStr
      ⟨by decide, by decide⟩).1,
    (claim_C9 lruCache2 3 "A" "q" (some 60) calculateSizeStr
      ⟨by decide, by decide⟩).2.2.2.2.2.1⟩

/-- C4 (counterexample): a value whose computed size (28 bytes for a
10-character string) exceeds `maxSize = 10` is nevertheless inserted:
`ensureCapacity` stops evicting once the cache is empty and `set` inserts
unconditionally, leaving `currentSize = 28 > maxSize` after the `set`. -/
theorem claim_C4_counterexample :
    mcSet smallCache 5 "k" "0123456789" (some 300) calculateSizeStr =
        some smallCacheAfter ∧
      smallCacheAfter.currentSize > (smallCacheAfter.config.maxSize : Int) ∧
      calculateSizeStr "0123456789" > smallCache.config.maxSize :=
  ⟨by decide, by decide, by decide⟩

/-- C4 (amended): after *every* `set` that returns — the inserted value's
size unconstrained, so oversized values included — the entry count is at
most `maxEntries` (the constructor guarantees `maxEntries ≥ 1`); and,
provided the size accounting was consistent and the inserted value's own
computed size is at most `maxSize`, the tracked total size is at most
`maxSize`.  (A single oversized value violates the size bound, see the
counterexample.) -/
theorem claim_C4 {α : Type} (c c' : MemoryCacheService α) (now : Nat)
    (key : String) (v : α) (ttl : Option Nat) (sz : α → Nat)
    (hset : mcSet c now key v ttl sz = some c')
    (hmax : 1 ≤ c.config.maxEntries) :
    c'.cache.length ≤ c'.config.maxEntries ∧
      (cacheInv c → sz v ≤ c.config.maxSize →
        c'.currentSize ≤ (c'.config.maxSize : Int)) :=
  ⟨(mcSet_facts hset).2.2.2.1 hmax, (mcSet_facts hset).2.2.2.2⟩

theorem claim_C4_witness :
    smallCacheAfter.cache.length ≤ smallCacheAfter.config.maxEntries ∧
      lruCache1.cache.length ≤ lruCache1.config.maxEntries ∧
      lruCache1.currentSize ≤ (lruCache1.config.maxSize : Int) :=
  ⟨(claim_C4 smallCache smallCacheAfter 5 "k" "0123456789" (some 300)
      calculateSizeStr (by decide) (by decide)).1,
    (claim_C4 lruCache0 lruCache1 1 "A" "x" (some 300) calculateSizeStr
      (by decide) (by decide)).1,
    (claim_C4 lruCache0 lruCache1 1 "A" "x" (some 300) calculateSizeStr
      (by decide) (by decide)).2 ⟨by decide, by decide⟩ (by decide)⟩

/-! ## LRU lemmas -/

theorem findOldest_foldl_aux {α : Type} :
    ∀ (l : List (String × CacheEntry α)) (acc : Option String × Nat),
      (l.foldl
          (fun acc kv =>
            if kv.2.lastAccessed < acc.2 then (some kv.1, kv.2.lastAccessed)
            else acc) acc = acc ∨
        ((l.foldl
            (fun acc kv =>
              if kv.2.lastAccessed < acc.2 then (some kv.1, kv.2.lastAccessed)
              else acc) acc).2 < acc.2 ∧
          ∃ kv ∈ l,
            (l.foldl
              (fun acc kv =>
                if kv.2.lastAccessed < acc.2 then (some kv.1, kv.2.lastAccessed)
                else acc) acc).1 = some kv.1 ∧
            (l.foldl
              (fun acc kv =>
                if kv.2.lastAccessed < acc.2 then (some kv.1, kv.2.lastAccessed)
                else acc) acc).2 = kv.2.lastAccessed)) ∧
      ∀ kv ∈ l,
        (l.foldl
          (fun acc kv =>
            if kv.2.lastAccessed < acc.2 then (some kv.1, kv.2.lastAccessed)
            else acc) acc).2 ≤ kv.2.lastAccessed := by
  intro l
  induction l with
  | nil => exact fun acc => ⟨Or.inl rfl, by simp⟩
  | cons kv t ih =>
    intro acc
    by_cases hlt : kv.2.lastAccessed < acc.2
    · have hstep :
          (kv :: t).foldl
            (fun acc kv =>
              if kv.2.lastAccessed < acc.2 then (some kv.1, kv.2.lastAccessed)
              else acc) acc =
          t.foldl
            (fun acc kv =>
              if kv.2.lastAccessed < acc.2 then (some kv.1, kv.2.lastAccessed)
              else acc) (some kv.1, kv.2.lastAccessed) := by
        simp [List.foldl_cons, hlt]
      obtain ⟨hd, hmin⟩ := ih (some kv.1, kv.2.lastAccessed)
      constructor
      · rcases hd with hd | ⟨hd1, kv', hkv', h1, h2⟩
        · refine Or.inr ⟨?_, kv, List.mem_cons_self kv t, ?_, ?_⟩
          · rw [hstep, hd]
            exact hlt
          · rw [hstep, hd]
          · rw [hstep, hd]
        · refine Or.inr ⟨?_, kv', List.mem_cons_of_mem kv hkv', ?_, ?_⟩
          · rw [hstep]
            exact lt_trans hd1 hlt
          · rw [hstep]
            exact h1
          · rw [hstep]
            exact h2
      · intro kv' hkv'
        rcases List.mem_cons.mp hkv' with h | h
        · subst h
          rw [hstep]
          rcases hd with hd | ⟨hd1, _⟩
          · rw [hd]
          · exact le_of_lt hd1
        · rw [hstep]
          exact hmin kv' h
    · have hstep :
          (kv :: t).foldl
            (fun acc kv =>
              if kv.2.lastAccessed < acc.2 then (some kv.1, kv.2.lastAccessed)
              else acc) acc =
          t.foldl
            (fun acc kv =>
              if kv.2.lastAccessed < acc.2 then (some kv.1, kv.2.lastAccessed)
              else acc) acc := by
        simp [List.foldl_cons, hlt]
      obtain ⟨hd, hmin⟩ := ih acc
      constructor
      · rcases hd with hd | ⟨hd1, kv', hkv', h1, h2⟩
        · exact Or.inl (by rw [hstep, hd])
        · exact Or.inr ⟨by rw [hstep]; exact hd1,
            kv', List.mem_cons_of_mem kv hkv',
            by rw [hstep]; exact h1, by rw [hstep]; exact h2⟩
      · intro kv' hkv'
        rcases List.mem_cons.mp hkv' with h | h
        · subst h
          rw [hstep]
          have : (t.foldl
            (fun acc kv =>
              if kv.2.lastAccessed < acc.2 then (some kv.1, kv.2.lastAccessed)
              else acc) acc).2 ≤ acc.2 := by
            rcases hd with hd | ⟨hd1, _⟩
            · rw [hd]
            · exact le_of_lt hd1
          omega
        · rw [hstep]
          exact hmin kv' h

theorem findOldest_spec {α : Type} {l : List (String × CacheEntry α)}
    {now : Nat} {k : String} (hnd : (l.map Prod.fst).Nodup)
    (h : findOldest l now = some k) :
    ∃ e, alGet l k = some e ∧ e.lastAccessed < now ∧
      ∀ kv ∈ l, e.lastAccessed ≤ kv.2.lastAccessed := by
  obtain ⟨hd, hmin⟩ := findOldest_foldl_aux l ((none : Option String), now)
  unfold findOldest at h
  rcases hd with hd | ⟨hd1, kv', hkv', h1, h2⟩
  · rw [hd] at h
    cases h
  · rw [h1] at h
    injection h with hk
    subst hk
    refine ⟨kv'.2, ?_, ?_, ?_⟩
    · exact alGet_of_mem_nodup (by simpa using hkv') hnd
    · rw [← h2]
      exact hd1
    · intro kv hkv
      rw [← h2]
      exact hmin kv hkv

/-- C6: LRU eviction removes an entry whose `lastAccessed` is minimal
(first conjunct; the code additionally requires it to be strictly older
than the current clock reading); a live `get` refreshes the entry's
`lastAccessed` to `now` (second conjunct); consequently, with
`maxEntries = 2`, inserting `A` at t=1 and `B` at t=2, reading `A` at
t=3 and inserting `C` at t=4 evicts `B` and keeps `A` (third conjunct). -/
theorem claim_C6 {α : Type} (c : MemoryCacheService α) (now : Nat)
    (key : String) (v : α) (hinv : cacheInv c) :
    (∀ c', evictLRU c now = some c' →
      ∃ k e, alGet c.cache k = some e ∧ c'.cache = alRemove c.cache k ∧
        e.lastAccessed < now ∧
        ∀ kv ∈ c.cache, e.lastAccessed ≤ kv.2.lastAccessed) ∧
    ((mcGet c now key).1 = some v →
      ∃ e, alGet c.cache key = some e ∧ e.value = v ∧
        alGet (mcGet c now key).2.cache key =
          some ⟨e.value, e.expiresAt, now, e.size⟩) ∧
    (mcSet lruCache3 4 "C" "z" (some 300) calculateSizeStr).map
        (fun st => st.cache.map Prod.fst) = some ["A", "C"] := by
  refine ⟨?_, ?_, by decide⟩
  · intro c' h
    cases hf : findOldest c.cache now with
    | none => simp [evictLRU, hf] at h
    | some k =>
      cases hg : alGet c.cache k with
      | none => simp [evictLRU, hf, hg] at h
      | some e =>
        simp only [evictLRU, hf, hg, Option.some.injEq] at h
        subst h
        obtain ⟨e', hget, hlast, hminim⟩ := findOldest_spec hinv.1 hf
        rw [hget] at hg
        injection hg with hee
        exact ⟨k, e, hee ▸ hget, rfl, hee ▸ hlast, hee ▸ hminim⟩
  · intro h
    have hval := h
    cases hg : alGet c.cache key with
    | none => simp [mcGet, hg] at h
    | some e =>
      by_cases hexp : e.expiresAt > 0 ∧ now > e.expiresAt
      · simp [mcGet, hg, hexp] at h
      · have h1 : (mcGet c now key).1 = some e.value := by
          simp [mcGet, hg, hexp]
        have hcache : (mcGet c now key).2.cache =
            alSet c.cache key ⟨e.value, e.expiresAt, now, e.size⟩ := by
          simp [mcGet, hg, hexp]
        refine ⟨e, rfl, ?_, ?_⟩
        · exact Option.some.inj (h1.symm.trans hval)
        · rw [hcache]
          exact alGet_alSet_self c.cache key _

theorem claim_C6_witness :
    ((mcGet lruCache2 3 "A").1 = some "x" →
      ∃ e, alGet lruCache2.cache "A" = some e ∧ e.value = "x" ∧
        alGet (mcGet lruCache2 3 "A").2.cache "A" =
          some ⟨e.value, e.expiresAt, 3, e.size⟩) ∧
    (mcSet lruCache3 4 "C" "z" (some 300) calculateSizeStr).map
        (fun st => st.cache.map Prod.fst) = some ["A", "C"] :=
  ⟨(claim_C6 lruCache2 3 "A" "x" ⟨by decide, by decide⟩).2.1,
    (claim_C6 lruCache3 4 "A" "x" ⟨by decide, by decide⟩).2.2⟩

/-- A live entry makes `get` a hit that refreshes `lastAccessed`. -/
theorem mcGet_live {α : Type} {c : MemoryCacheService α} {now : Nat}
    {key : String} {e : CacheEntry α} (hg : alGet c.cache key = some e)
    (hlive : ¬(e.expiresAt > 0 ∧ now > e.expiresAt)) :
    mcGet c now key =
      (some e.value,
        { c with
          cache := alSet c.cache key ⟨e.value, e.expiresAt, now, e.size⟩
          stats.hits := c.stats.hits + 1 }) := by
  simp [mcGet, hg, hlive]

/-- A cache hit short-circuits `generateCode`. -/
theorem generateCode_hit (bp : GenerateCodeRequest → String)
    (pr : Nat → String → Except String String) (now : Nat)
    (req : GenerateCodeRequest) (st : OrchestratorState)
    (r : GenerateCodeResponse) (c' : MemoryCacheService GenerateCodeResponse)
    (hGet : mcGet st.cache now (generateCacheKey req) = (some r, c')) :
    generateCode bp pr now req st = some (.ok r, ⟨c', st.providerCalls⟩) := by
  simp [generateCode, hGet]

/-- C1: a hit returns the cached `GenerationResult` with no provider
invocation (first conjunct: the call counter is unchanged); on a miss
whose provider call and parse succeed, the parsed result is returned and
written to the cache with expiry `t0 + 300·1000` ms — the 300-second TTL —
and a second identical call within that window returns the identical
result with no further provider invocation, so the provider is invoked
exactly once across both calls (second conjunct). -/
theorem claim_C1 :
    (∀ (bp : GenerateCodeRequest → String)
      (pr : Nat → String → Except String String) (now : Nat)
      (req : GenerateCodeRequest) (st : OrchestratorState)
      (r : GenerateCodeResponse)
      (c' : MemoryCacheService GenerateCodeResponse),
      mcGet st.cache now (generateCacheKey req) = (some r, c') →
      generateCode bp pr now req st = some (.ok r, ⟨c', st.providerCalls⟩)) ∧
    (∀ (bp : GenerateCodeRequest → String)
      (pr : Nat → String → Except String String) (t0 t1 : Nat)
      (req : GenerateCodeRequest) (st : OrchestratorState)
      (c0 : MemoryCacheService GenerateCodeResponse) (content : String)
      (resp : GenerateCodeResponse)
      (res1 : Except AppError GenerateCodeResponse) (st1 : OrchestratorState),
      mcGet st.cache t0 (generateCacheKey req) = (none, c0) →
      pr st.providerCalls (bp req) = .ok content →
      parseGeneratedResponse content req.framework = .ok resp →
      generateCode bp pr t0 req st = some (res1, st1) →
      t1 ≤ t0 + 300 * 1000 →
      res1 = .ok resp ∧ st1.providerCalls = st.providerCalls + 1 ∧
        alGet st1.cache.cache (generateCacheKey req) =
          some ⟨resp, t0 + 300 * 1000, t0, calculateSizeResponse resp⟩ ∧
        ∃ st2, generateCode bp pr t1 req st1 = some (.ok resp, st2) ∧
          st2.providerCalls = st1.providerCalls) := by
  constructor
  · exact generateCode_hit
  · intro bp pr t0 t1 req st c0 content resp res1 st1 hMiss hPr hParse hRun ht1
    simp only [generateCode, hMiss, hPr, hParse] at hRun
    cases hset : mcSet c0 t0 (generateCacheKey req) resp (some 300)
        calculateSizeResponse with
    | none => rw [hset] at hRun; cases hRun
    | some cache2 =>
      rw [hset] at hRun
      injection hRun with hpair
      injection hpair with h1 h2
      subst h1
      subst h2
      have hentry : alGet cache2.cache (generateCacheKey req) =
          some ⟨resp, t0 + 300 * 1000, t0, calculateSizeResponse resp⟩ := by
        have := (mcSet_facts hset).2.2.1
        simpa using this
      refine ⟨rfl, rfl, hentry, ?_⟩
      have hlive : ¬((⟨resp, t0 + 300 * 1000, t0,
          calculateSizeResponse resp⟩ : CacheEntry GenerateCodeResponse).expiresAt
            > 0 ∧
          t1 > (⟨resp, t0 + 300 * 1000, t0,
            calculateSizeResponse resp⟩ :
              CacheEntry GenerateCodeResponse).expiresAt) := by
        simp only
        omega
      have hget2 := @mcGet_live GenerateCodeResponse
        (OrchestratorState.cache ⟨cache2, st.providerCalls + 1⟩) t1
        (generateCacheKey req) _ hentry hlive
      exact ⟨_, generateCode_hit bp pr t1 req ⟨cache2, st.providerCalls + 1⟩
        resp _ hget2, rfl⟩

theorem claim_C1_witness :
    ∃ st2, generateCode fixtureBuildPrompt fixtureProvider 250000 fixtureReq
        fixtureOrch1 = some (.ok fixtureResp, st2) ∧
      st2.providerCalls = fixtureOrch1.providerCalls := by
  have h := claim_C1.2 fixtureBuildPrompt fixtureProvider 1000 250000
    fixtureReq fixtureOrch0 fixtureCacheMiss fixturePayload fixtureResp
    (.ok fixtureResp) fixtureOrch1 (by decide) (by decide) (by decide)
    (by decide) (by decide)
  exact h.2.2.2

/-! ## Retry-loop lemmas -/

theorem loop_succeed {oracle : Nat → Except String String} {d : Nat}
    {e text : String} (r : Nat)
    (h : attemptOutcome oracle (d + 1) = .ok text) :
    generateContentLoop oracle (r + 1) d e = ⟨.ok text, d + 1, []⟩ := by
  simp [generateContentLoop, h]

theorem loop_break {oracle : Nat → Except String String} {d : Nat}
    {e er : String} (r : Nat)
    (h : attemptOutcome oracle (d + 1) = .error er)
    (hnr : isNonRetryableError er = true) :
    generateContentLoop oracle (r + 1) d e =
      ⟨.error (geminiFailMsg er), d + 1, []⟩ := by
  simp [generateContentLoop, h, hnr]

theorem loop_last {oracle : Nat → Except String String} {d : Nat}
    {e er : String} (h : attemptOutcome oracle (d + 1) = .error er)
    (hnr : isNonRetryableError er = false) :
    generateContentLoop oracle (0 + 1) d e =
      ⟨.error (geminiFailMsg er), d + 1, []⟩ := by
  simp [generateContentLoop, h, hnr]

theorem loop_retry {oracle : Nat → Except String String} {d : Nat}
    {e er : String} {r : Nat}
    (h : attemptOutcome oracle (d + 1) = .error er)
    (hnr : isNonRetryableError er = false) (hr : 0 < r) :
    generateContentLoop oracle (r + 1) d e =
      ⟨(generateContentLoop oracle r (d + 1) er).result,
        (generateContentLoop oracle r (d + 1) er).attempts,
        min (1000 * 2 ^ d) 10000 ::
          (generateContentLoop oracle r (d + 1) er).delays⟩ := by
  simp [generateContentLoop, h, hnr, hr]

theorem loop_attempts_le (oracle : Nat → Except String String) :
    ∀ (r d : Nat) (e : String),
      (generateContentLoop oracle r d e).attempts ≤ d + r
  | 0, d, e => by simp [generateContentLoop]
  | r + 1, d, e => by
    cases ho : attemptOutcome oracle (d + 1) with
    | ok text =>
      rw [loop_succeed r ho]
      show d + 1 ≤ d + (r + 1)
      omega
    | error er =>
      cases hnr : isNonRetryableError er with
      | true =>
        rw [loop_break r ho hnr]
        show d + 1 ≤ d + (r + 1)
        omega
      | false =>
        by_cases hr : 0 < r
        · rw [loop_retry ho hnr hr]
          have ih := loop_attempts_le oracle r (d + 1) er
          show (generateContentLoop oracle r (d + 1) er).attempts ≤ d + (r + 1)
          omega
        · have hr0 : r = 0 := by omega
          subst hr0
          rw [loop_last ho hnr]

theorem loop_attempts_lb (oracle : Nat → Except String String) :
    ∀ (r d : Nat) (e : String), 1 ≤ r →
      d + 1 ≤ (generateContentLoop oracle r d e).attempts
  | 0, _, _, hr => by omega
  | r + 1, d, e, _ => by
    cases ho : attemptOutcome oracle (d + 1) with
    | ok text => rw [loop_succeed r ho]
    | error er =>
      cases hnr : isNonRetryableError er with
      | true => rw [loop_break r ho hnr]
      | false =>
        by_cases hr : 0 < r
        · rw [loop_retry ho hnr hr]
          have ih := loop_attempts_lb oracle r (d + 1) er hr
          show d + 1 ≤ (generateContentLoop oracle r (d + 1) er).attempts
          omega
        · have hr0 : r = 0 := by omega
          subst hr0
          rw [loop_last ho hnr]

theorem loop_delays (oracle : Nat → Except String String) :
    ∀ (r d : Nat) (e : String),
      (generateContentLoop oracle r d e).delays =
        (List.range ((generateContentLoop oracle r d e).attempts - 1 - d)).map
          (fun i => min (1000 * 2 ^ (d + i)) 10000)
  | 0, d, e => by simp [generateContentLoop]
  | r + 1, d, e => by
    cases ho : attemptOutcome oracle (d + 1) with
    | ok text => rw [loop_succeed r ho]; simp
    | error er =>
      cases hnr : isNonRetryableError er with
      | true => rw [loop_break r ho hnr]; simp
      | false =>
        by_cases hr : 0 < r
        · rw [loop_retry ho hnr hr]
          have ih := loop_delays oracle r (d + 1) er
          have hlb := loop_attempts_lb oracle r (d + 1) er hr
          simp only
          rw [ih]
          have hn : (generateContentLoop oracle r (d + 1) er).attempts - 1 - d =
              ((generateContentLoop oracle r (d + 1) er).attempts - 1 - (d + 1))
                + 1 := by
            omega
          rw [hn, List.range_succ_eq_map, List.map_cons, List.map_map]
          have hfun : ((fun i => min (1000 * 2 ^ (d + i)) 10000) ∘ Nat.succ) =
              fun i => min (1000 * 2 ^ (d + 1 + i)) 10000 := by
            funext i
            simp only [Function.comp_apply]
            congr 3
            omega
          rw [hfun]
          simp
        · have hr0 : r = 0 := by omega
          subst hr0
          rw [loop_last ho hnr]
          simp

theorem delays_chain_mono (n d : Nat) :
    List.Chain' (· ≤ ·)
      ((List.range n).map (fun i => min (1000 * 2 ^ (d + i)) 10000)) := by
  have hp : List.Pairwise (· < ·) (List.range n) := List.pairwise_lt_range n
  have hm : List.Pairwise (· ≤ ·)
      ((List.range n).map (fun i => min (1000 * 2 ^ (d + i)) 10000)) := by
    refine hp.map _ ?_
    intro a b hab
    refine min_le_min ?_ (le_refl _)
    exact Nat.mul_le_mul_left _ (Nat.pow_le_pow_right (by norm_num) (by omega))
  exact hm.chain'

theorem loop_exhaust (oracle : Nat → Except String String) :
    ∀ (r d : Nat) (lastErr eLast : String), 1 ≤ r →
      (∀ a, d + 1 ≤ a → a ≤ d + r →
        ∃ er, attemptOutcome oracle a = .error er ∧
          isNonRetryableError er = false) →
      attemptOutcome oracle (d + r) = .error eLast →
      (generateContentLoop oracle r d lastErr).result =
          .error (geminiFailMsg eLast) ∧
        (generateContentLoop oracle r d lastErr).attempts = d + r
  | 0, _, _, _, hr, _, _ => by omega
  | r + 1, d, lastErr, eLast, _, hall, hlast => by
    obtain ⟨er, ho, hnr⟩ := hall (d + 1) (by omega) (by omega)
    by_cases hrr : 0 < r
    · rw [loop_retry ho hnr hrr]
      have ih := loop_exhaust oracle r (d + 1) er eLast hrr
        (fun a ha1 ha2 => hall a (by omega) (by omega))
        (by rw [show d + 1 + r = d + (r + 1) from by omega]; exact hlast)
      simp only
      exact ⟨ih.1, by rw [ih.2]; omega⟩
    · have hr0 : r = 0 := by omega
      subst hr0
      have her : er = eLast := by
        rw [show d + (0 + 1) = d + 1 from by omega] at hlast
        rw [ho] at hlast
        injection hlast
      subst her
      rw [loop_last ho hnr]
      exact ⟨rfl, rfl⟩

/-- C7: the provider retry loop makes at most `retries` attempts (first
conjunct); the inter-attempt delays are exactly
`min(1000·2^(attempt−1), 10000)` for the attempts that were followed by
another one, hence non-decreasing (second conjunct); a provider failing
retryably on attempts 1 and 2 and succeeding on attempt 3 yields success
after exactly 3 attempts with delays 1000 ms and 2000 ms (third
conjunct); and when every allowed attempt fails retryably, the call fails
with `Gemini generation failed: <last error>` after exactly `retries`
attempts (fourth conjunct). -/
theorem claim_C7 :
    (∀ (oracle : Nat → Except String String) (retries : Nat) (prompt : String),
      (generateContent oracle retries prompt).attempts ≤ retries) ∧
    (∀ (oracle : Nat → Except String String) (retries : Nat) (prompt : String),
      (generateContent oracle retries prompt).delays =
        (List.range ((generateContent oracle retries prompt).attempts - 1)).map
          (fun i => min (1000 * 2 ^ i) 10000) ∧
      List.Chain' (· ≤ ·) (generateContent oracle retries prompt).delays) ∧
    (∀ (oracle : Nat → Except String String) (prompt e1 e2 text : String),
      validatePrompt prompt = none →
      attemptOutcome oracle 1 = .error e1 → isNonRetryableError e1 = false →
      attemptOutcome oracle 2 = .error e2 → isNonRetryableError e2 = false →
      attemptOutcome oracle 3 = .ok text →
      generateContent oracle 3 prompt = ⟨.ok text, 3, [1000, 2000]⟩) ∧
    (∀ (oracle : Nat → Except String String) (retries : Nat)
      (prompt eLast : String),
      validatePrompt prompt = none → 1 ≤ retries →
      (∀ a, 1 ≤ a → a ≤ retries →
        ∃ er, attemptOutcome oracle a = .error er ∧
          isNonRetryableError er = false) →
      attemptOutcome oracle retries = .error eLast →
      (generateContent oracle retries prompt).result =
          .error (geminiFailMsg eLast) ∧
        (generateContent oracle retries prompt).attempts = retries) := by
  refine ⟨?_, ?_, ?_, ?_⟩
  · intro oracle retries prompt
    unfold generateContent
    split
    · simp
    · have := loop_attempts_le oracle retries 0 ""
      simpa using this
  · intro oracle retries prompt
    unfold generateContent
    split
    · simp
    · constructor
      · have := loop_delays oracle retries 0 ""
        simpa using this
      · have hd := loop_delays oracle retries 0 ""
        rw [hd]
        have := delays_chain_mono
          ((generateContentLoop oracle retries 0 "").attempts - 1 - 0) 0
        simpa using this
  · intro oracle prompt e1 e2 text hv h1 hn1 h2 hn2 h3
    have s3 : generateContentLoop oracle 1 2 e2 = ⟨.ok text, 3, []⟩ :=
      loop_succeed (d := 2) 0 h3
    have s2 : generateContentLoop oracle 2 1 e1 = ⟨.ok text, 3, [2000]⟩ := by
      have hr := loop_retry (d := 1) (e := e1) (r := 1) h2 hn2 (by omega)
      norm_num at hr
      rw [s3] at hr
      exact hr
    have s1 : generateContentLoop oracle 3 0 "" = ⟨.ok text, 3, [1000, 2000]⟩ := by
      have hr := loop_retry (d := 0) (e := "") (r := 2) h1 hn1 (by omega)
      norm_num at hr
      rw [s2] at hr
      exact hr
    simp only [generateContent, hv]
    exact s1
  · intro oracle retries prompt eLast hv hr hall hlast
    simp only [generateContent, hv]
    have := loop_exhaust oracle retries 0 "" eLast hr
      (fun a ha1 ha2 => hall a (by omega) (by omega)) (by simpa using hlast)
    simpa using this

theorem claim_C7_witness :
    generateContent oracleFailTwice 3 "p" = ⟨.ok "hello", 3, [1000, 2000]⟩ ∧
      (generateContent oracleAlwaysFail 3 "p").result =
        .error (geminiFailMsg "socket hang up") ∧
      (generateContent oracleAlwaysFail 3 "p").attempts = 3 := by
  refine ⟨?_, ?_⟩
  · exact claim_C7.2.2.1 oracleFailTwice "p" "socket hang up" "socket hang up"
      "hello" (by decide) (by decide) (by decide) (by decide) (by decide)
      (by decide)
  · exact claim_C7.2.2.2 oracleAlwaysFail 3 "p" "socket hang up" (by decide)
      (by omega) (fun a _ _ => ⟨"socket hang up", rfl, by decide⟩) rfl

/-- C5 (code bug): with `A` and `B` registered as mutually dependent
classes, `resolve "A"` succeeds instead of raising the circular-dependency
error, because `register` stores `extractDependencies(implementation) = []`
for every service (second conjunct) — contradicting the container's own
"Circular dependency detection" feature documentation.  The third conjunct
shows the `resolve`-level cycle check does fire, naming both tokens, when
the dependency records are populated the way the documentation promises. -/
theorem claim_C5 :
    (resolve 10 containerAB "A").isOk = true ∧
    containerAB.services =
      [("A", ⟨⟨"AImpl", ["B"]⟩, false, []⟩),
       ("B", ⟨⟨"BImpl", ["A"]⟩, false, []⟩)] ∧
    resolve 10 containerWired "A" =
      .error "Circular dependency detected: A -> B -> A" :=
  ⟨by rfl, by decide, by rfl⟩

/-- C8: `generateCodeWithStreaming` never touches the cache — for every
provider outcome the cache component of the state is returned unchanged —
whereas the non-streaming `generateCode` writes its parsed result on a
miss (second conjunct: the fixture miss stores the key that was absent
before the call). -/
theorem claim_C8 :
    (∀ (bp : GenerateCodeRequest → String)
      (prs : Nat → String → Except String String) (now : Nat)
      (req : GenerateCodeRequest) (st : OrchestratorState),
      (generateCodeWithStreaming bp prs now req st).2.cache = st.cache) ∧
    (generateCode fixtureBuildPrompt fixtureProvider 1000 fixtureReq
        fixtureOrch0 = some (.ok fixtureResp, fixtureOrch1) ∧
      alGet fixtureOrch0.cache.cache (generateCacheKey fixtureReq) = none ∧
      (alGet fixtureOrch1.cache.cache (generateCacheKey fixtureReq)).isSome
        = true) := by
  constructor
  · intro bp prs now req st
    unfold generateCodeWithStreaming
    cases hcall : prs st.providerCalls (bp req) with
    | error e => simp [hcall]
    | ok content =>
      cases hparse : parseGeneratedResponse content req.framework with
      | error e => simp [hcall, hparse]
      | ok r => simp [hcall, hparse]
  · exact ⟨by decide, by decide, by decide⟩

/-- C2 (counterexample): the spec's repair-recovery scenario — a fenced
JSON payload with an unescaped quote inside a `content` field — is *not*
parsed successfully after the repair pass: the repair regex's capture
group `[^"]*(?:\\.[^"]*)*` cannot span an unescaped quote, so the pass
leaves the text unchanged and the generation parse fails. -/
theorem claim_C2_counterexample :
    parseGeneratedResponse quoteExample "react" =
      .error ⟨"Failed to parse generated code response", 500, "external_api",
        .jsonSyntaxError⟩ := by
  decide

/-- C2 (amended): `cleanJsonString` applies at most the single repair pass
(re-escaping backslash, quote, newline, carriage-return and tab inside the
captured `fileContent`/`content` fields) and retries the parse exactly
once (first conjunct); when both parses fail the original string is kept
(second conjunct) and the generation parse surfaces the malformed-response
error (third conjunct).  The repair recovers a payload whose content field
contains a raw control character: the fenced example with a raw newline
parses successfully after exactly one repair pass (fourth conjunct). -/
theorem claim_C2 :
    (∀ s, cleanJsonString s = s ∨
      cleanJsonString s =
        replaceContentField "content" (replaceContentField "fileContent" s)) ∧
    (∀ s, JSONparse s = none →
      JSONparse
        (replaceContentField "content" (replaceContentField "fileContent" s))
        = none →
      cleanJsonString s = s) ∧
    (∀ content fw, JSONparse (extractJsonFromContent content) = none →
      parseGeneratedResponse content fw =
        .error ⟨"Failed to parse generated code response", 500,
          "external_api", .jsonSyntaxError⟩) ∧
    (JSONparse newlineCapture = none ∧
      extractJsonFromContent newlineExample =
        replaceContentField "content"
          (replaceContentField "fileContent" newlineCapture) ∧
      parseGeneratedResponse newlineExample "react" =
        .ok ⟨[("a.js", .str "line1\nline2")],
          .str "Generated react application successfully", .arr []⟩) := by
  refine ⟨?_, ?_, ?_, by decide, by decide, by decide⟩
  · intro s
    cases h1 : JSONparse s with
    | some v => exact Or.inl (by simp [cleanJsonString, h1])
    | none =>
      cases h2 : JSONparse
          (replaceContentField "content" (replaceContentField "fileContent" s)) with
      | some v => exact Or.inr (by simp [cleanJsonString, h1, h2])
      | none => exact Or.inl (by simp [cleanJsonString, h1, h2])
  · intro s h1 h2
    simp [cleanJsonString, h1, h2]
  · intro content fw hp
    simp [parseGeneratedResponse, hp]

theorem claim_C2_witness :
    cleanJsonString garbageContent = garbageContent ∧
      parseGeneratedResponse garbageContent "react" =
        .error ⟨"Failed to parse generated code response", 500,
          "external_api", .jsonSyntaxError⟩ :=
  ⟨claim_C2.2.1 garbageContent (by decide) (by decide),
    claim_C2.2.2.1 garbageContent "react" (by decide)⟩

/-- C3 (counterexample): the claim's cross-product reading promises that an
array item exposing `path` for the path and `fileContent` for the content
is folded into the canonical map, but the normalization chain has no
branch for that combination: the item is dropped, the folded map is empty
and the whole parse fails with the no-files error. -/
theorem claim_C3_counterexample :
    parseGeneratedResponse payloadPathFileContent "react" =
      .error ⟨"Failed to parse generated code response", 500, "external_api",
        .innerMessage "No valid files found in response"⟩ := by
  decide

/-- C3 (amended): the normalization accepts an object/map of path→content
and arrays — under `files` or as the whole parsed payload — of objects
using one of the field pairs `{name,content}`, `{filename,content}`,
`{path,content}`, `{fileName,fileContent}` (other path/content
combinations are dropped), and folds all of these into one identical
canonical map (first five conjuncts: the spec's §8 shapes fold to the same
map; sixth conjunct: a top-level array folds exactly like an array under
`files`); if the folded map is empty, parsing fails with the no-files
error (last conjunct). -/
theorem claim_C3 :
    (parseGeneratedResponse payloadMap "react" =
      .ok ⟨canonicalFiles, .str "Generated react application successfully",
        .arr []⟩) ∧
    (parseGeneratedResponse payloadNameContent "react" =
      .ok ⟨canonicalFiles, .str "Generated react application successfully",
        .arr []⟩) ∧
    (parseGeneratedResponse payloadFilenameContent "react" =
      .ok ⟨canonicalFiles, .str "Generated react application successfully",
        .arr []⟩) ∧
    (parseGeneratedResponse payloadPathContent "react" =
      .ok ⟨canonicalFiles, .str "Generated react application successfully",
        .arr []⟩) ∧
    (parseGeneratedResponse payloadFileNameFileContent "react" =
      .ok ⟨canonicalFiles, .str "Generated react application successfully",
        .arr []⟩) ∧
    (∀ xs : List Json,
      normalizeFiles (.obj [("files", .arr xs)]) = normalizeFiles (.arr xs)) ∧
    (∀ (content fw : String) (parsed : Json),
      JSONparse (extractJsonFromContent content) = some parsed →
      normalizeFiles parsed = [] →
      parseGeneratedResponse content fw =
        .error ⟨"Failed to parse generated code response", 500,
          "external_api", .innerMessage "No valid files found in response"⟩) := by
  refine ⟨by decide, by decide, by decide, by decide, by decide, ?_, ?_⟩
  · intro xs
    rfl
  · intro content fw parsed hp hnorm
    simp [parseGeneratedResponse, hp, hnorm]

theorem claim_C3_witness :
    JSONparse (extractJsonFromContent payloadPathFileContent) =
        some (.obj [("files",
          .arr [.obj [("path", .str "a.js"), ("fileContent", .str "x")]])]) ∧
      normalizeFiles (.obj [("files",
          .arr [.obj [("path", .str "a.js"), ("fileContent", .str "x")]])])
        = [] ∧
      parseGeneratedResponse payloadPathFileContent "react" =
        .error ⟨"Failed to parse generated code response", 500,
          "external_api", .innerMessage "No valid files found in response"⟩ :=
  ⟨by decide, by decide,
    claim_C3.2.2.2.2.2.2 payloadPathFileContent "react"
      (.obj [("files",
        .arr [.obj [("path", .str "a.js"), ("fileContent", .str "x")]])])
      (by decide) (by decide)⟩

end Tinkerly
